import Mathlib

/-!
Verification development for the G-Love dashboard core (`dashboard.py`).

Strings are modelled as `List Char`; Python text slicing, `str.find`,
`str.split`, `str.rstrip` and the regular expressions used by the program
are translated into structural Lean functions.  Numeric payloads are
modelled with exact rationals (`ℚ`): the program's IEEE-754 rounding and
underflow are idealized away, which does not affect any of the control-flow
properties proved here.  All definitions are executable; time stamps are
threaded explicitly as a parameter (`now`) instead of calling a clock.
-/

set_option autoImplicit false

namespace Dashboard

/-- A line terminator character: the framer scans for `\n` or `\r`. -/
def isTermChar (c : Char) : Bool := c = '\n' || c = '\r'

/-- Model of Python `str.find` for a single character: index of the first
occurrence (`-1` becomes `none`). -/
def strFind (c : Char) : List Char → Option Nat
  | [] => none
  | x :: xs => if x = c then some 0 else (strFind c xs).map (· + 1)

/-- First index holding a terminator character (helper used to reason about
`nextNewlineIndex`). -/
def findTermIdx : List Char → Option Nat
  | [] => none
  | c :: cs => if isTermChar c then some 0 else (findTermIdx cs).map (· + 1)

/-- `LineBuffer._next_newline_index`: the smaller of the first positions of
`\n` and `\r`, when either occurs. -/
def nextNewlineIndex (buffer : List Char) : Option Nat :=
  match strFind '\n' buffer, strFind '\r' buffer with
  | none, none => none
  | some i, none => some i
  | none, some j => some j
  | some i, some j => some (min i j)

/-- `LineBuffer._consume_newline`: consume the terminator at `i`, and the
following `\n` as well when the terminator is `\r` immediately followed by
`\n` inside the buffer. -/
def consumeNewline (buffer : List Char) (i : Nat) : Nat :=
  if buffer.get? i = some '\r' ∧ buffer.get? (i + 1) = some '\n' then i + 2 else i + 1

/-- Fuelled form of the `while True` extraction loop in `LineBuffer.feed`:
repeatedly split off the text before the first terminator.  One unit of fuel
is spent per extracted line; `buffer.length` units always suffice because
each iteration consumes at least one character. -/
def extractLinesAux : Nat → List Char → List (List Char) × List Char
  | 0, buffer => ([], buffer)
  | fuel + 1, buffer =>
    match nextNewlineIndex buffer with
    | none => ([], buffer)
    | some i =>
      (buffer.take i :: (extractLinesAux fuel (buffer.drop (consumeNewline buffer i))).1,
       (extractLinesAux fuel (buffer.drop (consumeNewline buffer i))).2)

/-- The terminator-extraction loop of `LineBuffer.feed`: the emitted lines in
order, and the residual un-terminated buffer. -/
def extractLines (buffer : List Char) : List (List Char) × List Char :=
  extractLinesAux buffer.length buffer

/-- An emission of the framer: a Record (`_handle_line` callback) or a
force-flushed fragment (`_flush_fragment` callback). -/
inductive Emit where
  | record : List Char → Emit
  | fragment : List Char → Emit
deriving DecidableEq

/-- The records among a list of emissions. -/
def emitRecords (es : List Emit) : List (List Char) :=
  es.filterMap fun e => match e with | .record r => some r | .fragment _ => none

/-- The fragments among a list of emissions. -/
def emitFragments (es : List Emit) : List (List Char) :=
  es.filterMap fun e => match e with | .record _ => none | .fragment r => some r

/-- `LineBuffer.feed`: append the chunk, extract every terminated line as a
Record, then force-flush the residual as a fragment when it exceeds 256
characters.  Returns the emissions in order and the new buffer. -/
def feed (buf chunk : List Char) : List Emit × List Char :=
  if chunk.isEmpty then ([], buf) else
  let ex := extractLines (buf ++ chunk)
  if ex.2 ≠ [] ∧ 256 < ex.2.length then
    (ex.1.map Emit.record ++ [Emit.fragment ex.2], [])
  else (ex.1.map Emit.record, ex.2)

/-- `LineBuffer.flush`: emit a non-empty residual once as a fragment. -/
def flush (buf : List Char) : List Emit × List Char :=
  if buf ≠ [] then ([Emit.fragment buf], []) else ([], buf)

/-- Feed a sequence of chunks, concatenating the emissions. -/
def feedMany (buf : List Char) : List (List Char) → List Emit × List Char
  | [] => ([], buf)
  | c :: cs =>
    let r1 := feed buf c
    let r2 := feedMany r1.2 cs
    (r1.1 ++ r2.1, r2.2)

/-- Reference scanner for one-character-at-a-time feeding: accumulate into
`buf` and cut a piece at every single terminator character.  (Each terminator
char arrives in its own chunk, so a `\r\n` pair is never seen together.) -/
def scanChars : List Char → List Char → List (List Char) × List Char
  | buf, [] => ([], buf)
  | buf, c :: cs =>
    if isTermChar c then
      let res := scanChars [] cs
      (buf :: res.1, res.2)
    else scanChars (buf ++ [c]) cs

/-- The first piece produced by a scan, or the residual when there is none. -/
def firstOut (p : List (List Char) × List Char) : List Char :=
  match p.1 with
  | [] => p.2
  | x :: _ => x

/-- Decidable encoding of "the residual buffer never exceeds the 256-character
threshold while feeding these chunks". -/
def noOverflow : List Char → List (List Char) → Bool
  | _, [] => true
  | buf, c :: cs =>
    decide ((extractLines (buf ++ c)).2.length ≤ 256) && noOverflow (feed buf c).2 cs

/-- Python whitespace for `str.strip()` / `\s`. -/
def isSpaceChar (c : Char) : Bool :=
  c = ' ' || c = '\t' || c = '\n' || c = '\r' || c = '\x0b' || c = '\x0c'

/-- Model of Python `str.strip()`. -/
def stripStr (l : List Char) : List Char :=
  ((l.dropWhile isSpaceChar).reverse.dropWhile isSpaceChar).reverse

/-- Model of Python `str.upper()` (the program only upcases ASCII tags). -/
def upperStr (l : List Char) : List Char := l.map Char.toUpper

/-- Model of Python `str.lower()`. -/
def lowerStr (l : List Char) : List Char := l.map Char.toLower

/-- Model of `line.rstrip("\r\n")`. -/
def rstripTerm (l : List Char) : List Char :=
  (l.reverse.dropWhile isTermChar).reverse

/-- Match a literal pattern at the head of the input, returning the rest. -/
def dropLit : List Char → List Char → Option (List Char)
  | [], l => some l
  | _ :: _, [] => none
  | p :: ps, c :: cs => if c = p then dropLit ps cs else none

/-- Case-insensitive form of `dropLit`, for the `re.IGNORECASE` patterns. -/
def dropLitCI : List Char → List Char → Option (List Char)
  | [], l => some l
  | _ :: _, [] => none
  | p :: ps, c :: cs => if c.toLower = p.toLower then dropLitCI ps cs else none

/-- A severity code of `LOG_LINE_RE`: one of `E W I D V`. -/
def isLevel (c : Char) : Bool := c = 'E' || c = 'W' || c = 'I' || c = 'D' || c = 'V'

/-- The named groups of a `LOG_LINE_RE` match. -/
structure LogMatch where
  level : Char
  timestamp : List Char
  tag : List Char
  message : List Char
deriving DecidableEq

/-- `LOG_LINE_RE.match` on terminator-free text:
`^(?P<level>[EWIDV]) \((?P<timestamp>\d+)\) (?P<tag>[^:]+): (?P<message>.*)$`.
`[^:]+` necessarily stops at the first colon and `.*$` extends to the end of
the (newline-free) string, so a successful match always spans the whole
input. -/
def logLineMatch (l : List Char) : Option LogMatch :=
  match l with
  | lvl :: ' ' :: '(' :: r1 =>
    if isLevel lvl then
      let p1 := r1.span Char.isDigit
      if p1.1.isEmpty then none else
      match p1.2 with
      | ')' :: ' ' :: r3 =>
        let p2 := r3.span (fun c => !(c = ':'))
        if p2.1.isEmpty then none else
        match p2.2 with
        | ':' :: ' ' :: msg => some ⟨lvl, p1.1, p2.1, msg⟩
        | _ => none
      | _ => none
    else none
  | _ => none

/-- Length of one ANSI escape `\x1b\[[0-9;]*m` at the head, if present. -/
def ansiEscLen (l : List Char) : Option Nat :=
  match l with
  | a :: b :: rest =>
    if a = '\x1b' ∧ b = '[' then
      let p := rest.span (fun c => c.isDigit || c = ';')
      match p.2 with
      | 'm' :: _ => some (p.1.length + 3)
      | _ => none
    else none
  | _ => none

/-- Greedy repetition for `ANSI_PREFIX_RE = ^(?:\x1b\[[0-9;]*m)+` (fuelled;
every escape is at least 3 characters long, so `l.length` fuel suffices). -/
def ansiLeadLenAux : Nat → List Char → Nat
  | 0, _ => 0
  | fuel + 1, l =>
    match ansiEscLen l with
    | none => 0
    | some k => k + ansiLeadLenAux fuel (l.drop k)

/-- Length of the maximal run of leading ANSI escapes (0 when none). -/
def ansiLeadLen (l : List Char) : Nat := ansiLeadLenAux l.length l

/-- `_strip_ansi_prefix`: remove the leading ANSI escapes. -/
def stripAnsiLead (l : List Char) : List Char := l.drop (ansiLeadLen l)

/-- True when a structured-log header prefix (`"E ("`, `"W ("`, ...) starts
here.  The dispatcher computes `min` over the five `str.find` results of
`LOG_PREFIXES`; that minimum is exactly the first position where any of the
five prefixes begins. -/
def isLogHeaderAt (l : List Char) : Bool :=
  match l with
  | c :: b :: d :: _ => isLevel c && decide (b = ' ') && decide (d = '(')
  | _ => false

/-- First position where one of the `LOG_PREFIXES` occurs (the `min indices`
computation in `LineDispatcher._split_line`). -/
def findLogHeaderPos : List Char → Option Nat
  | [] => none
  | l@(_ :: xs) => if isLogHeaderAt l then some 0 else (findLogHeaderPos xs).map (· + 1)

/-- Segment kinds used by the dispatcher (the spec calls `cli` "plain"). -/
inductive SegKind where
  | log
  | cli
deriving DecidableEq

/-- The cursor loop of `LineDispatcher._split_line`, acting on the suffix of
the text starting at the cursor.  A successful `LOG_LINE_RE` match spans the
rest of the line, so `cursor` then reaches `length` and the loop ends; a
failed match at a found prefix advances the cursor by one character without
emitting anything (so those characters are dropped from the output). -/
def splitLoop : Nat → List Char → List (List Char × SegKind)
  | 0, _ => []
  | fuel + 1, suffix =>
    if suffix.isEmpty then [] else
    match findLogHeaderPos suffix with
    | none => [(suffix, SegKind.cli)]
    | some idx =>
      match logLineMatch (suffix.drop idx) with
      | none => splitLoop fuel (suffix.drop (idx + 1))
      | some _ =>
        (if (suffix.take idx).isEmpty then [] else [(suffix.take idx, SegKind.cli)]) ++
          [(suffix.drop idx, SegKind.log)]

/-- `LineDispatcher._split_line`. -/
def splitLine (text : List Char) : List (List Char × SegKind) :=
  if text.isEmpty then [] else
  let pl := ansiLeadLen text
  (if pl = 0 then [] else [(text.take pl, SegKind.cli)]) ++
    splitLoop (text.drop pl).length (text.drop pl)

/-- `_LogLineFilter`: the "show all" flag and the normalized allow-list
(`None` when no allow-list is configured or the given one is empty). -/
structure LogFilter where
  show_logs : Bool
  allowed_tags : Option (List (List Char))

/-- `_LogLineFilter.__init__`: tags are stripped and upper-cased; a falsy
(absent or empty) allow-list is stored as `None`. -/
def mkLogLineFilter (show_logs : Bool) (allowed_tags : Option (List (List Char))) : LogFilter :=
  ⟨show_logs,
   match allowed_tags with
   | none => none
   | some l => if l.isEmpty then none else some (l.map fun t => upperStr (stripStr t))⟩

/-- `_LogLineFilter.allows`. -/
def allows (f : LogFilter) (m : Option LogMatch) : Bool :=
  match m with
  | none => true
  | some mm =>
    if f.show_logs then true else
    match f.allowed_tags with
    | none => false
    | some tags => decide (upperStr (stripStr mm.tag) ∈ tags)

/-- Modelled from the spec's words, for the refinement in C4: "If show all is
set, every structured segment passes. Otherwise a segment passes only if its
tag is in the (case-insensitive) allow-list; with no allow-list configured,
all structured segments are withheld." `tag` is the extracted upper-cased
tag. -/
def specFilterPass (showAll : Bool) (allowList : Option (List (List Char)))
    (tag : List Char) : Bool :=
  if showAll then true else
  match allowList with
  | none => false
  | some l =>
    if l.isEmpty then false else decide (tag ∈ l.map fun t => upperStr (stripStr t))

/-- `SUPPRESSED_MONITOR_TAGS`. -/
def suppressedMonitorTags : List (List Char) :=
  ["FUSION".toList, "MOTION".toList, "FLEX".toList]

/-- `LineDispatcher._emit_segments`: returns the texts put on the monitor
queue, the texts put on the CLI queue, and the pending-CLI buffer after the
pass. -/
def emitSegments (f : LogFilter) :
    List (List Char × SegKind) → List (List Char) →
      List (List Char) × List (List Char) × List (List Char)
  | [], pending => ([], [], pending)
  | (text, kind) :: rest, pending =>
    if text.isEmpty then emitSegments f rest pending else
    match kind with
    | SegKind.log =>
      match logLineMatch (stripAnsiLead text) with
      | none => emitSegments f rest (pending ++ [text])
      | some m =>
        let tag := upperStr (stripStr m.tag)
        let res := emitSegments f rest pending
        ((if tag ∈ suppressedMonitorTags then [] else [text]) ++ res.1,
         (if allows f (some m) then [text ++ ['\n']] else []) ++ res.2.1,
         res.2.2)
    | SegKind.cli => emitSegments f rest (pending ++ [text])

/-- `LineDispatcher._maybe_flush_cli`: flush the joined pending buffer to the
CLI queue when forced or when the record's final segment was plain. -/
def maybeFlushCli (segments : List (List Char × SegKind)) (force : Bool)
    (pending : List (List Char)) : List (List Char) × List (List Char) :=
  if pending.isEmpty then ([], pending) else
  let lastCli :=
    match segments.getLast? with
    | some s => decide (s.2 = SegKind.cli)
    | none => false
  if force || lastCli then
    ([pending.flatten ++ (if force then [] else ['\n'])], [])
  else ([], pending)

/-- Observable outcome of one `LineDispatcher.handle_line` call: the text
handed to `TelemetryState.ingest_line` (if any), the monitor-queue texts, the
CLI-queue texts, and the pending buffer left behind. -/
structure HandleResult where
  ingested : Option (List Char)
  monitor : List (List Char)
  cli : List (List Char)
  pendingAfter : List (List Char)
deriving DecidableEq

/-- `LineDispatcher.handle_line`: strip trailing terminators, drop empty
records, otherwise ingest the stripped text, split, emit segments and maybe
flush the pending CLI buffer (not forced). -/
def handle_line (f : LogFilter) (pending : List (List Char)) (line : List Char) :
    HandleResult :=
  let stripped := rstripTerm line
  if stripped.isEmpty then ⟨none, [], [], pending⟩ else
  let segs := splitLine stripped
  let er := emitSegments f segs pending
  let fl := maybeFlushCli segs false er.2.2
  ⟨some stripped, er.1, er.2.1 ++ fl.1, fl.2⟩

/-- A parsed Python float: exact rational, infinities, or NaN. -/
inductive FloatVal where
  | fin : ℚ → FloatVal
  | inf
  | ninf
  | nan
deriving DecidableEq

/-- Value of a decimal digit string. -/
def natOfDigits (l : List Char) : ℕ :=
  l.foldl (fun acc c => acc * 10 + (c.toNat - '0'.toNat)) 0

/-- Mantissa part of a float literal: digits with an optional fraction. -/
def parseDecMantissa (l : List Char) : Option (ℚ × List Char) :=
  let ip := l.span Char.isDigit
  match ip.2 with
  | '.' :: r2 =>
    let fp := r2.span Char.isDigit
    if ip.1.isEmpty && fp.1.isEmpty then none
    else some ((natOfDigits ip.1 : ℚ) + (natOfDigits fp.1 : ℚ) / (10 : ℚ) ^ fp.1.length, fp.2)
  | _ => if ip.1.isEmpty then none else some ((natOfDigits ip.1 : ℚ), ip.2)

/-- Optional exponent suffix of a float literal; the whole remainder must be
consumed. -/
def parseExpPart (m : ℚ) : List Char → Option ℚ
  | [] => some m
  | c :: rest =>
    if c = 'e' || c = 'E' then
      let sr : Bool × List Char :=
        match rest with
        | '+' :: r => (false, r)
        | '-' :: r => (true, r)
        | r => (false, r)
      let dp := sr.2.span Char.isDigit
      if dp.1.isEmpty then none else
      if !dp.2.isEmpty then none else
      some (if sr.1 then m / (10 : ℚ) ^ natOfDigits dp.1 else m * (10 : ℚ) ^ natOfDigits dp.1)
    else none

/-- Model of Python `float(s)` over exact rationals: optional sign, then
`inf`/`infinity`/`nan` (case-insensitive) or a decimal literal with optional
fraction and exponent; `none` models a `ValueError`.  IEEE-754 rounding,
overflow/underflow and digit-group underscores are idealized away. -/
def parseFloat (s : List Char) : Option FloatVal :=
  let t := stripStr s
  let sb : Bool × List Char :=
    match t with
    | '+' :: r => (false, r)
    | '-' :: r => (true, r)
    | r => (false, r)
  if lowerStr sb.2 = "inf".toList || lowerStr sb.2 = "infinity".toList then
    some (if sb.1 then FloatVal.ninf else FloatVal.inf)
  else if lowerStr sb.2 = "nan".toList then some FloatVal.nan
  else
    match parseDecMantissa sb.2 with
    | none => none
    | some mr =>
      match parseExpPart mr.1 mr.2 with
      | none => none
      | some v => some (FloatVal.fin (if sb.1 then -v else v))

/-- `parse_quat`, kept as the validated pre-normalization components: exactly
4 comma-separated floats, all finite, with non-zero norm.  The source checks
`n == 0 or not isfinite(n)` on `n = norm(q)`: `n` is non-finite exactly when
a component is non-finite, and zero exactly when every (finite) component is
zero (for rationals, the sum of squares vanishes iff each component does; the
all-zero test keeps the definition kernel-evaluable, see `sumSq_ne_zero`).
The program stores the tuple divided by `n`; that division is expressed by
`normalizeQuat` below so that state stays exactly computable. -/
def parse_quat (s : List Char) : Option (ℚ × ℚ × ℚ × ℚ) :=
  let parts := (s.splitOn ',').map stripStr
  match parts with
  | [a, b, c, d] =>
    match parseFloat a, parseFloat b, parseFloat c, parseFloat d with
    | some (FloatVal.fin qa), some (FloatVal.fin qb),
      some (FloatVal.fin qc), some (FloatVal.fin qd) =>
      if qa = 0 ∧ qb = 0 ∧ qc = 0 ∧ qd = 0 then none else some (qa, qb, qc, qd)
    | _, _, _, _ => none
  | _ => none

/-- `parse_vec3`: exactly 3 comma-separated floats, all finite. -/
def parse_vec3 (s : List Char) : Option (ℚ × ℚ × ℚ) :=
  let parts := (s.splitOn ',').map stripStr
  match parts with
  | [a, b, c] =>
    match parseFloat a, parseFloat b, parseFloat c with
    | some (FloatVal.fin qa), some (FloatVal.fin qb), some (FloatVal.fin qc) =>
      some (qa, qb, qc)
    | _, _, _ => none
  | _ => none

/-- Sum of squared components over ℝ. -/
def sumSqR (q : ℝ × ℝ × ℝ × ℝ) : ℝ :=
  q.1 ^ 2 + q.2.1 ^ 2 + q.2.2.1 ^ 2 + q.2.2.2 ^ 2

/-- The value the program actually stores for a validated quaternion: the
tuple divided by its Euclidean norm (noncomputable because of `Real.sqrt`,
mirroring the one real-valued operation of `parse_quat`). -/
noncomputable def normalizeQuat (q : ℚ × ℚ × ℚ × ℚ) : ℝ × ℝ × ℝ × ℝ :=
  let n : ℝ :=
    Real.sqrt ((q.1 : ℝ) ^ 2 + (q.2.1 : ℝ) ^ 2 + (q.2.2.1 : ℝ) ^ 2 + (q.2.2.2 : ℝ) ^ 2)
  ((q.1 : ℝ) / n, (q.2.1 : ℝ) / n, (q.2.2.1 : ℝ) / n, (q.2.2.2 : ℝ) / n)

/-- `re.search` with a head-anchored matcher: try every suffix left to
right. -/
def searchWith {α : Type} (m : List Char → Option α) : List Char → Option α
  | [] => m []
  | l@(_ :: xs) =>
    match m l with
    | some r => some r
    | none => searchWith m xs

/-- `FUSION_Q_RE` / `SFLP_Q_RE` matched at the head: the tag name, `\s+`,
`q:[`, a non-empty bracket-free group, `]`; returns group 1. -/
def matchQuatAt (name : List Char) (l : List Char) : Option (List Char) :=
  match dropLit name l with
  | none => none
  | some r1 =>
    let ws := r1.span isSpaceChar
    if ws.1.isEmpty then none else
    match dropLit "q:[".toList ws.2 with
    | none => none
    | some r3 =>
      let ct := r3.span (fun c => !(c = ']'))
      if ct.1.isEmpty then none else
      match ct.2 with
      | ']' :: _ => some ct.1
      | _ => none

def matchFusionAt : List Char → Option (List Char) := matchQuatAt "FUSION".toList

def matchSflpAt : List Char → Option (List Char) := matchQuatAt "SFLP".toList

/-- `POSITION_RE = POS\s*:\[([^\]]+)\]` matched at the head. -/
def matchPosAt (l : List Char) : Option (List Char) :=
  match dropLit "POS".toList l with
  | none => none
  | some r1 =>
    match dropLit ":[".toList (r1.dropWhile isSpaceChar) with
    | none => none
    | some r3 =>
      let ct := r3.span (fun c => !(c = ']'))
      if ct.1.isEmpty then none else
      match ct.2 with
      | ']' :: _ => some ct.1
      | _ => none

/-- `MAG_RE = M:\[([^\]]+)\]` matched at the head. -/
def matchMagAt (l : List Char) : Option (List Char) :=
  match dropLit "M:[".toList l with
  | none => none
  | some r3 =>
    let ct := r3.span (fun c => !(c = ']'))
    if ct.1.isEmpty then none else
    match ct.2 with
    | ']' :: _ => some ct.1
    | _ => none

/-- The `[0-9.+-]` character class of `PUNCH_RE`. -/
def isPunchNumChar (c : Char) : Bool := c.isDigit || c = '.' || c = '+' || c = '-'

/-- `PUNCH_RE` (case-insensitive) matched at the head; returns the three
numeric groups. -/
def matchPunchAt (l : List Char) : Option (List Char × List Char × List Char) :=
  match dropLitCI "punch detected:".toList l with
  | none => none
  | some r1 =>
    let g1 := (r1.dropWhile isSpaceChar).span isPunchNumChar
    if g1.1.isEmpty then none else
    match dropLitCI "m/s".toList (g1.2.dropWhile isSpaceChar) with
    | none => none
    | some r2 =>
      match dropLitCI "hv=".toList (r2.dropWhile isSpaceChar) with
      | none => none
      | some r3 =>
        let g2 := r3.span isPunchNumChar
        if g2.1.isEmpty then none else
        match dropLitCI "deg".toList (g2.2.dropWhile isSpaceChar) with
        | none => none
        | some r4 =>
          match dropLitCI "vv=".toList (r4.dropWhile isSpaceChar) with
          | none => none
          | some r5 =>
            let g3 := r5.span isPunchNumChar
            if g3.1.isEmpty then none else
            match dropLitCI "deg".toList (g3.2.dropWhile isSpaceChar) with
            | none => none
            | some _ => some (g1.1, g2.1, g3.1)

/-- `FLEX_RE` (case-insensitive) matched at the head; returns the four digit
groups (old value, new value, raw median, MIDI). -/
def matchFlexAt (l : List Char) :
    Option (List Char × List Char × List Char × List Char) :=
  match dropLitCI "flex:".toList l with
  | none => none
  | some r1 =>
    match dropLitCI "flex value changed:".toList (r1.dropWhile isSpaceChar) with
    | none => none
    | some r2 =>
      let g1 := (r2.dropWhile isSpaceChar).span Char.isDigit
      if g1.1.isEmpty then none else
      match dropLit "->".toList (g1.2.dropWhile isSpaceChar) with
      | none => none
      | some r3 =>
        let g2 := (r3.dropWhile isSpaceChar).span Char.isDigit
        if g2.1.isEmpty then none else
        match dropLitCI "(raw median:".toList (g2.2.dropWhile isSpaceChar) with
        | none => none
        | some r4 =>
          let g3 := (r4.dropWhile isSpaceChar).span Char.isDigit
          if g3.1.isEmpty then none else
          match g3.2 with
          | ',' :: r5 =>
            match dropLitCI "midi:".toList (r5.dropWhile isSpaceChar) with
            | none => none
            | some r6 =>
              let g4 := (r6.dropWhile isSpaceChar).span Char.isDigit
              if g4.1.isEmpty then none else
              match g4.2 with
              | ')' :: _ => some (g1.1, g2.1, g3.1, g4.1)
              | _ => none
          | _ => none

/-- The mutable fields of `TelemetryState`.  Quaternions are kept as the
validated pre-normalization tuples (see `parse_quat`); time stamps are the
explicit `now` argument of each ingestion. -/
structure TState where
  latest_fusion : Option (ℚ × ℚ × ℚ × ℚ)
  latest_sflp : Option (ℚ × ℚ × ℚ × ℚ)
  latest_position : Option (ℚ × ℚ × ℚ)
  position_ts : ℚ
  latest_mag : Option (ℚ × ℚ × ℚ)
  mag_ts : ℚ
  last_telemetry_update : ℚ
  last_punch : Option (ℚ × ℚ × ℚ)
  last_punch_ts : ℚ
  flex_value : Option ℕ
  flex_raw_median : Option ℕ
  flex_midi : Option ℕ
  flex_ts : ℚ
deriving DecidableEq

/-- `TelemetryState.__init__`. -/
def initTelemetry : TState :=
  ⟨none, none, none, 0, none, 0, 0, none, 0, none, none, none, 0⟩

/-- The `FUSION` block of `ingest_line` (a parsed 4-tuple is always truthy,
so `if q:` is `q is not None`). -/
def applyFusion (now : ℚ) (line : List Char) (st : TState) : TState × Bool :=
  match searchWith matchFusionAt line with
  | none => (st, false)
  | some payload =>
    match parse_quat payload with
    | none => (st, false)
    | some q => ({ st with latest_fusion := some q, last_telemetry_update := now }, true)

/-- The `SFLP` block of `ingest_line`. -/
def applySflp (now : ℚ) (line : List Char) (st : TState) : TState × Bool :=
  match searchWith matchSflpAt line with
  | none => (st, false)
  | some payload =>
    match parse_quat payload with
    | none => (st, false)
    | some q => ({ st with latest_sflp := some q, last_telemetry_update := now }, true)

/-- The `POS` block of `ingest_line`. -/
def applyPosition (now : ℚ) (line : List Char) (st : TState) : TState × Bool :=
  match searchWith matchPosAt line with
  | none => (st, false)
  | some payload =>
    match parse_vec3 payload with
    | none => (st, false)
    | some v =>
      ({ st with latest_position := some v, position_ts := now,
                 last_telemetry_update := now }, true)

/-- The `M:` (magnetometer) block of `ingest_line`. -/
def applyMag (now : ℚ) (line : List Char) (st : TState) : TState × Bool :=
  match searchWith matchMagAt line with
  | none => (st, false)
  | some payload =>
    match parse_vec3 payload with
    | none => (st, false)
    | some v =>
      ({ st with latest_mag := some v, mag_ts := now,
                 last_telemetry_update := now }, true)

/-- The punch block of `ingest_line`: a `ValueError` in `float()` turns all
three numbers into NaN, and a NaN or infinity fails the `isfinite` check, so
the update happens exactly when all three groups parse as finite floats. -/
def applyPunch (now : ℚ) (line : List Char) (st : TState) : TState × Bool :=
  match searchWith matchPunchAt line with
  | none => (st, false)
  | some g =>
    match parseFloat g.1, parseFloat g.2.1, parseFloat g.2.2 with
    | some (FloatVal.fin v), some (FloatVal.fin h), some (FloatVal.fin w) =>
      ({ st with last_punch := some (v, h, w), last_punch_ts := now,
                 last_telemetry_update := now }, true)
    | _, _, _ => (st, false)

/-- The flex block of `ingest_line`: `int()` on a `\d+` group cannot raise,
so the source's `ValueError` fallback is dead code and a match always
updates. -/
def applyFlex (now : ℚ) (line : List Char) (st : TState) : TState × Bool :=
  match searchWith matchFlexAt line with
  | none => (st, false)
  | some g =>
    ({ st with flex_value := some (natOfDigits g.2.1),
               flex_raw_median := some (natOfDigits g.2.2.1),
               flex_midi := some (natOfDigits g.2.2.2),
               flex_ts := now, last_telemetry_update := now }, true)

/-- `TelemetryState.ingest_line`: the five extractions run in sequence and a
record matching none of them still bumps the heartbeat time stamp. -/
def ingest_line (now : ℚ) (st : TState) (line : List Char) : TState :=
  let r1 := applyFusion now line st
  let r2 := applySflp now line r1.1
  let r3 := applyPosition now line r2.1
  let r4 := applyMag now line r3.1
  let r5 := applyPunch now line r4.1
  let r6 := applyFlex now line r5.1
  if r1.2 || r2.2 || r3.2 || r4.2 || r5.2 || r6.2 then r6.1
  else { r6.1 with last_telemetry_update := now }

/-- The reconnect-relevant state of `SerialTelemetryClient.run`. -/
structure SerialSt where
  connected : Bool
  reconnect_attempt : ℕ
deriving DecidableEq

/-- Status messages the serial loop can emit. -/
inductive SMsg where
  | waiting
  | connectFailed
  | connectedOk
  | disconnected
deriving DecidableEq

/-- Environment behaviour for one loop iteration: whether the configured port
is listed, whether `Serial(...)` succeeds, and whether the blocking read
succeeds (a failed read raises). -/
structure Stim where
  portPresent : Bool
  openOk : Bool
  readOk : Bool
deriving DecidableEq

/-- One iteration of the `while not self._stop.is_set()` loop of
`SerialTelemetryClient.run`.  A successful open falls through to the read in
the same iteration (there is no `continue` after connecting); `waiting` and
`connectFailed` share the `reconnect_attempt` counter and are emitted only
when it is zero. -/
def serialStep (st : SerialSt) (s : Stim) : SerialSt × List SMsg :=
  if st.connected then
    if s.readOk then (st, [])
    else ({ connected := false, reconnect_attempt := 0 }, [SMsg.disconnected])
  else
    if !s.portPresent then
      ({ connected := false, reconnect_attempt := st.reconnect_attempt + 1 },
       if st.reconnect_attempt = 0 then [SMsg.waiting] else [])
    else if s.openOk then
      if s.readOk then ({ connected := true, reconnect_attempt := 0 }, [SMsg.connectedOk])
      else ({ connected := false, reconnect_attempt := 0 },
            [SMsg.connectedOk, SMsg.disconnected])
    else
      ({ connected := false, reconnect_attempt := st.reconnect_attempt + 1 },
       if st.reconnect_attempt = 0 then [SMsg.connectFailed] else [])

/-- Run the serial loop over a stimulus list, collecting status messages. -/
def serialRun (st : SerialSt) : List Stim → List SMsg × SerialSt
  | [] => ([], st)
  | s :: rest =>
    let r1 := serialStep st s
    let r2 := serialRun r1.1 rest
    (r1.2 ++ r2.1, r2.2)

/-- `DEFAULT_WRITE_CHUNK`. -/
def DEFAULT_WRITE_CHUNK : ℕ := 20

/-- Slice a payload into `n`-byte chunks (the `range(0, len, chunk_size)`
loop); fuelled by the payload length, which suffices since `n ≥ 1` in every
use. -/
def chunkAux : Nat → Nat → List Nat → List (List Nat)
  | 0, _, _ => []
  | fuel + 1, n, l => if l.isEmpty then [] else l.take n :: chunkAux fuel n (l.drop n)

def chunkPayload (n : Nat) (l : List Nat) : List (List Nat) := chunkAux l.length n l

/-- `_write_nus`: nothing for an empty payload; otherwise the chunk size is
`DEFAULT_WRITE_CHUNK` when no `mtu_size` is known and
`max(DEFAULT_WRITE_CHUNK, mtu - 3)` when it is; the payload is written in
chunk-size slices, in order. -/
def writeNus (mtu : Option ℤ) (payload : List Nat) : List (List Nat) :=
  if payload.isEmpty then [] else
  let chunkSize : ℤ :=
    match mtu with
    | none => (DEFAULT_WRITE_CHUNK : ℤ)
    | some m => max (DEFAULT_WRITE_CHUNK : ℤ) (m - 3)
  chunkPayload chunkSize.toNat payload

/-! ### Framer lemmas -/

theorem nextNewlineIndex_eq_findTermIdx (b : List Char) :
    nextNewlineIndex b = findTermIdx b := by
  induction b with
  | nil => rfl
  | cons c cs ih =>
    by_cases hn : c = '\n'
    · subst hn
      cases h : strFind '\r' cs <;>
        simp [nextNewlineIndex, strFind, findTermIdx, isTermChar, h, Nat.zero_min]
    · by_cases hr : c = '\r'
      · subst hr
        cases h : strFind '\n' cs <;>
          simp [nextNewlineIndex, strFind, findTermIdx, isTermChar, h, Nat.min_zero]
      · have hterm : isTermChar c = false := by simp [isTermChar, hn, hr]
        cases h1 : strFind '\n' cs <;> cases h2 : strFind '\r' cs <;>
          simp [nextNewlineIndex, strFind, findTermIdx, hterm, hn, hr, h1, h2] at ih ⊢ <;>
          simp [← ih, Nat.succ_min_succ]

theorem findTermIdx_eq_none {b : List Char} (h : ∀ c ∈ b, isTermChar c = false) :
    findTermIdx b = none := by
  induction b with
  | nil => rfl
  | cons c cs ih =>
    have hc := h c (by simp)
    simp [findTermIdx, hc, ih fun x hx => h x (by simp [hx])]

theorem findTermIdx_none_mem {b : List Char} (h : findTermIdx b = none) :
    ∀ c ∈ b, isTermChar c = false := by
  induction b with
  | nil => simp
  | cons c cs ih =>
    intro x hx
    cases hc : isTermChar c with
    | true => simp [findTermIdx, hc] at h
    | false =>
      simp only [findTermIdx, hc, Bool.false_eq_true, if_false, Option.map_eq_none'] at h
      rcases List.mem_cons.mp hx with rfl | hx'
      · exact hc
      · exact ih h x hx'

theorem findTermIdx_append (a : List Char) (t : Char) (r : List Char)
    (ha : ∀ c ∈ a, isTermChar c = false) (ht : isTermChar t = true) :
    findTermIdx (a ++ t :: r) = some a.length := by
  induction a with
  | nil => simp [findTermIdx, ht]
  | cons c cs ih =>
    have hc := ha c (by simp)
    simp [findTermIdx, hc, ih fun x hx => ha x (by simp [hx])]

theorem findTermIdx_decomp {b : List Char} {i : ℕ} (h : findTermIdx b = some i) :
    ∃ a t r, b = a ++ t :: r ∧ a.length = i ∧
      (∀ c ∈ a, isTermChar c = false) ∧ isTermChar t = true := by
  induction b generalizing i with
  | nil => simp [findTermIdx] at h
  | cons c cs ih =>
    cases hc : isTermChar c with
    | true =>
      have hi : i = 0 := by
        simp [findTermIdx, hc] at h
        omega
      subst hi
      exact ⟨[], c, cs, rfl, rfl, by simp, hc⟩
    | false =>
      simp only [findTermIdx, hc, Bool.false_eq_true, if_false, Option.map_eq_some'] at h
      obtain ⟨j, hj, rfl⟩ := h
      obtain ⟨a, t, r, rfl, hlen, ha, ht⟩ := ih hj
      refine ⟨c :: a, t, r, rfl, by simp [hlen], ?_, ht⟩
      intro x hx
      rcases List.mem_cons.mp hx with rfl | hx'
      · exact hc
      · exact ha x hx'

theorem get_append_mid (a : List Char) (t : Char) (r : List Char) :
    (a ++ t :: r).get? a.length = some t := by
  induction a with
  | nil => rfl
  | cons c cs ih => simpa using ih

theorem get_append_mid_succ (a : List Char) (t : Char) (r : List Char) :
    (a ++ t :: r).get? (a.length + 1) = r.head? := by
  induction a with
  | nil => cases r <;> rfl
  | cons c cs ih => simpa using ih

theorem consumeNewline_append (a : List Char) (t : Char) (r : List Char) :
    consumeNewline (a ++ t :: r) a.length =
      if t = '\r' ∧ r.head? = some '\n' then a.length + 2 else a.length + 1 := by
  unfold consumeNewline
  rw [get_append_mid, get_append_mid_succ]
  simp [Option.some.injEq]

theorem take_len_append (a l : List Char) : (a ++ l).take a.length = a := by
  induction a with
  | nil => rfl
  | cons c cs ih => simpa using ih

theorem drop_len_succ_append (a : List Char) (t : Char) (r : List Char) :
    (a ++ t :: r).drop (a.length + 1) = r := by
  induction a with
  | nil => rfl
  | cons c cs ih => simpa using ih

theorem drop_len_two_append (a : List Char) (t x : Char) (r : List Char) :
    (a ++ t :: x :: r).drop (a.length + 2) = r := by
  induction a with
  | nil => rfl
  | cons c cs ih => simpa [Nat.succ_eq_add_one] using ih

theorem consumeNewline_ge_one (b : List Char) (i : ℕ) :
    1 ≤ consumeNewline b i := by
  unfold consumeNewline; split <;> omega

theorem extractLinesAux_fuel_aux (f : ℕ) : ∀ g, g ≤ f → ∀ b : List Char, b.length ≤ g →
    extractLinesAux g b = extractLinesAux b.length b := by
  induction f with
  | zero =>
    intro g hg b hb
    have hg0 : g = 0 := Nat.le_zero.mp hg
    subst hg0
    have hb0 : b = [] := List.length_eq_zero.mp (Nat.le_zero.mp hb)
    subst hb0; rfl
  | succ f ih =>
    intro g hg b hb
    cases g with
    | zero =>
      have hb0 : b = [] := List.length_eq_zero.mp (Nat.le_zero.mp hb)
      subst hb0; rfl
    | succ k =>
      cases b with
      | nil => simp [extractLinesAux, nextNewlineIndex, strFind]
      | cons c cs =>
        simp only [List.length_cons] at hb
        simp only [List.length_cons]
        rw [extractLinesAux, extractLinesAux]
        cases hnn : nextNewlineIndex (c :: cs) with
        | none => rfl
        | some i =>
          have hlen : ((c :: cs).drop (consumeNewline (c :: cs) i)).length ≤ cs.length := by
            have h1 := consumeNewline_ge_one (c :: cs) i
            simp only [List.length_drop, List.length_cons]
            omega
          have hk : ((c :: cs).drop (consumeNewline (c :: cs) i)).length ≤ k := by
            omega
          dsimp only
          rw [ih k (by omega) _ hk, ih cs.length (by omega) _ hlen]

theorem extractLinesAux_fuel (f : ℕ) : ∀ b : List Char, b.length ≤ f →
    extractLinesAux f b = extractLinesAux b.length b :=
  fun b hb => extractLinesAux_fuel_aux f f le_rfl b hb

theorem extractLines_nil : extractLines [] = ([], []) := rfl

theorem extractLines_none {b : List Char} (h : nextNewlineIndex b = none) :
    extractLines b = ([], b) := by
  unfold extractLines
  cases b with
  | nil => rfl
  | cons c cs =>
    simp only [List.length_cons]
    rw [extractLinesAux, h]

theorem extractLines_some {b : List Char} {i : ℕ} (h : nextNewlineIndex b = some i) :
    extractLines b =
      (b.take i :: (extractLines (b.drop (consumeNewline b i))).1,
       (extractLines (b.drop (consumeNewline b i))).2) := by
  cases b with
  | nil => simp [nextNewlineIndex, strFind] at h
  | cons c cs =>
    have hlen : ((c :: cs).drop (consumeNewline (c :: cs) i)).length ≤ cs.length := by
      have h1 := consumeNewline_ge_one (c :: cs) i
      simp only [List.length_drop, List.length_cons]
      omega
    show extractLinesAux (c :: cs).length (c :: cs) = _
    simp only [List.length_cons]
    rw [extractLinesAux, h]
    dsimp only
    rw [extractLinesAux_fuel cs.length _ hlen]
    rfl

theorem feed_term_char {buf : List Char} {t : Char}
    (hb : ∀ c ∈ buf, isTermChar c = false) (ht : isTermChar t = true) :
    feed buf [t] = ([Emit.record buf], []) := by
  have h1 : nextNewlineIndex (buf ++ [t]) = some buf.length := by
    rw [nextNewlineIndex_eq_findTermIdx]
    exact findTermIdx_append buf t [] hb ht
  have hc : consumeNewline (buf ++ [t]) buf.length = buf.length + 1 := by
    rw [consumeNewline_append]
    simp
  have hex : extractLines (buf ++ [t]) = ([buf], []) := by
    rw [extractLines_some h1, hc, take_len_append, drop_len_succ_append, extractLines_nil]
  unfold feed
  simp [hex]

theorem feed_plain_char {buf : List Char} {c : Char}
    (h : ∀ x ∈ buf ++ [c], isTermChar x = false)
    (hlen : (buf ++ [c]).length ≤ 256) :
    feed buf [c] = ([], buf ++ [c]) := by
  have h1 : nextNewlineIndex (buf ++ [c]) = none := by
    rw [nextNewlineIndex_eq_findTermIdx]
    exact findTermIdx_eq_none h
  unfold feed
  simp [extractLines_none h1]
  simp only [List.length_append, List.length_singleton] at hlen
  omega

theorem scanChars_no_term {s : List Char} (h : ∀ c ∈ s, isTermChar c = false) :
    ∀ buf, scanChars buf s = ([], buf ++ s) := by
  induction s with
  | nil => intro buf; simp [scanChars]
  | cons c cs ih =>
    intro buf
    have hc := h c (by simp)
    rw [scanChars, if_neg (by simp [hc])]
    rw [ih fun x hx => h x (by simp [hx])]
    simp

theorem scanChars_append {a : List Char} {t : Char} (r : List Char)
    (ha : ∀ c ∈ a, isTermChar c = false) (ht : isTermChar t = true) :
    ∀ buf, scanChars buf (a ++ t :: r) =
      ((buf ++ a) :: (scanChars [] r).1, (scanChars [] r).2) := by
  induction a with
  | nil =>
    intro buf
    rw [List.nil_append, scanChars, if_pos (by simp [ht])]
    simp
  | cons c cs ih =>
    intro buf
    have hc := ha c (by simp)
    rw [List.cons_append, scanChars, if_neg (by simp [hc])]
    rw [ih fun x hx => ha x (by simp [hx])]
    simp

theorem scanChars_firstOut (cs : List Char) : ∀ buf,
    ∃ s, firstOut (scanChars buf cs) = buf ++ s := by
  induction cs with
  | nil => intro buf; exact ⟨[], by simp [scanChars, firstOut]⟩
  | cons c cs ih =>
    intro buf
    cases hc : isTermChar c with
    | true =>
      refine ⟨[], ?_⟩
      rw [scanChars, if_pos (by simp [hc])]
      simp [firstOut]
    | false =>
      obtain ⟨s, hs⟩ := ih (buf ++ [c])
      refine ⟨[c] ++ s, ?_⟩
      rw [scanChars, if_neg (by simp [hc])]
      rw [hs]
      simp

theorem feedMany_per_char (cs : List Char) : ∀ buf,
    (∀ c ∈ buf, isTermChar c = false) →
    (∀ p ∈ (scanChars buf cs).1, p.length ≤ 256) →
    (scanChars buf cs).2.length ≤ 256 →
    feedMany buf (cs.map fun c => [c]) =
      ((scanChars buf cs).1.map Emit.record, (scanChars buf cs).2) := by
  induction cs with
  | nil => intro buf _ _ _; simp [feedMany, scanChars]
  | cons c cs ih =>
    intro buf hbuf hp hr
    cases hc : isTermChar c with
    | true =>
      rw [scanChars, if_pos (by simp [hc])] at hp hr ⊢
      simp only [List.map_cons]
      rw [feedMany]
      rw [feed_term_char hbuf hc]
      rw [ih [] (by simp) (fun p hmem => hp p (by simp [hmem])) hr]
      simp
    | false =>
      rw [scanChars, if_neg (by simp [hc])] at hp hr ⊢
      have hbuf' : ∀ x ∈ buf ++ [c], isTermChar x = false := by
        intro x hx
        rcases List.mem_append.mp hx with hx' | hx'
        · exact hbuf x hx'
        · simp at hx'
          subst hx'
          exact hc
      have hlen : (buf ++ [c]).length ≤ 256 := by
        obtain ⟨s, hs⟩ := scanChars_firstOut cs (buf ++ [c])
        cases hfo : (scanChars (buf ++ [c]) cs).1 with
        | nil =>
          have : firstOut (scanChars (buf ++ [c]) cs) = (scanChars (buf ++ [c]) cs).2 := by
            simp [firstOut, hfo]
          have h2 := hr
          rw [← this, hs] at h2
          calc (buf ++ [c]).length ≤ (buf ++ [c] ++ s).length := by simp
            _ ≤ 256 := h2
        | cons p ps =>
          have : firstOut (scanChars (buf ++ [c]) cs) = p := by simp [firstOut, hfo]
          have h2 := hp p (by simp [hfo])
          rw [← this, hs] at h2
          calc (buf ++ [c]).length ≤ (buf ++ [c] ++ s).length := by simp
            _ ≤ 256 := h2
      simp only [List.map_cons]
      rw [feedMany]
      rw [feed_plain_char hbuf' hlen]
      rw [ih (buf ++ [c]) hbuf' hp hr]
      simp

theorem scan_extract (n : ℕ) : ∀ s : List Char, s.length ≤ n →
    ((extractLines s).1.filter fun r => !r.isEmpty) =
      ((scanChars [] s).1.filter fun r => !r.isEmpty) ∧
    (extractLines s).2 = (scanChars [] s).2 := by
  induction n with
  | zero =>
    intro s hs
    have hs0 : s = [] := List.length_eq_zero.mp (Nat.le_zero.mp hs)
    subst hs0
    exact ⟨rfl, rfl⟩
  | succ n ih =>
    intro s hs
    cases hft : findTermIdx s with
    | none =>
      have hnn : nextNewlineIndex s = none := by
        rw [nextNewlineIndex_eq_findTermIdx, hft]
      rw [extractLines_none hnn, scanChars_no_term (findTermIdx_none_mem hft) []]
      simp
    | some i =>
      obtain ⟨a, t, r, rfl, hlen, ha, ht⟩ := findTermIdx_decomp hft
      have hnn : nextNewlineIndex (a ++ t :: r) = some a.length := by
        rw [nextNewlineIndex_eq_findTermIdx]
        exact findTermIdx_append a t r ha ht
      rw [extractLines_some hnn, consumeNewline_append,
        scanChars_append r ha ht []]
      simp only [List.length_append, List.length_cons] at hs
      by_cases hpair : t = '\r' ∧ r.head? = some '\n'
      · obtain ⟨rfl, hr⟩ := hpair
        obtain ⟨r2, rfl⟩ : ∃ r2, r = '\n' :: r2 := by
          cases r with
          | nil => simp at hr
          | cons x xs =>
            simp only [List.head?_cons, Option.some.injEq] at hr
            exact ⟨xs, by rw [hr]⟩
        rw [if_pos ⟨rfl, by simp⟩, drop_len_two_append, take_len_append]
        have hr2 : r2.length ≤ n := by simp at hs; omega
        obtain ⟨ihf, ihr⟩ := ih r2 hr2
        rw [scanChars, if_pos (by simp [isTermChar])]
        constructor
        · simp only [List.nil_append, List.filter_cons]
          rw [ihf]
          simp
        · exact ihr
      · rw [if_neg hpair, drop_len_succ_append, take_len_append]
        have hrn : r.length ≤ n := by omega
        obtain ⟨ihf, ihr⟩ := ih r hrn
        have hscan : scanChars [] r = ((scanChars [] r).1, (scanChars [] r).2) := rfl
        constructor
        · simp only [List.nil_append, List.filter_cons]
          rw [ihf]
        · exact ihr

theorem emitRecords_map_record (l : List (List Char)) :
    emitRecords (l.map Emit.record) = l := by
  induction l with
  | nil => rfl
  | cons x xs ih => simp [emitRecords] at ih ⊢; exact ih

theorem emitFragments_map_record (l : List (List Char)) :
    emitFragments (l.map Emit.record) = [] := by
  induction l with
  | nil => rfl
  | cons x xs ih =>
    simp only [emitFragments, List.map_cons, List.filterMap_cons] at ih ⊢
    exact ih

/-- Claim C1 (amended): for a fully terminated byte sequence none of whose
records exceeds the 256-character overflow threshold, feeding it to
`LineBuffer.feed` one character at a time emits the same sequence of
non-empty Records, in order, as feeding it in a single chunk, and neither
feeding force-flushes a fragment.  (The sequences of raw Records differ: a
`\r\n` pair split across chunks emits an extra empty Record, see the
counterexample; the router drops empty Records.) -/
theorem C1_framer_chunk_invariance (s : List Char)
    (hres : (extractLines s).2 = [])
    (hlen : ∀ r ∈ (extractLines s).1, r.length ≤ 256) :
    ((emitRecords (feedMany [] (s.map fun c => [c])).1).filter fun r => !r.isEmpty) =
      ((emitRecords (feed [] s).1).filter fun r => !r.isEmpty) ∧
    emitFragments (feedMany [] (s.map fun c => [c])).1 = [] ∧
    emitFragments (feed [] s).1 = [] := by
  obtain ⟨hfilter, hres2⟩ := scan_extract s.length s le_rfl
  have hscanlen : ∀ p ∈ (scanChars [] s).1, p.length ≤ 256 := by
    intro p hp
    cases p with
    | nil => simp
    | cons x xs =>
      have hmem : (x :: xs) ∈ ((scanChars [] s).1.filter fun r => !r.isEmpty) :=
        List.mem_filter.mpr ⟨hp, by simp⟩
      rw [← hfilter] at hmem
      exact hlen _ (List.mem_filter.mp hmem).1
  have hscanres : (scanChars [] s).2.length ≤ 256 := by
    rw [← hres2, hres]
    simp
  have hB := feedMany_per_char s [] (by simp) hscanlen hscanres
  have hfeed : emitRecords (feed [] s).1 = (extractLines s).1 ∧
      emitFragments (feed [] s).1 = [] := by
    cases s with
    | nil => exact ⟨rfl, rfl⟩
    | cons c cs =>
      unfold feed
      rw [if_neg (by simp)]
      simp only [List.nil_append]
      rw [if_neg (by simp [hres])]
      exact ⟨emitRecords_map_record _, emitFragments_map_record _⟩
  refine ⟨?_, ?_, hfeed.2⟩
  · rw [hB, hfeed.1, emitRecords_map_record, hfilter]
  · rw [hB, emitFragments_map_record]

/-- Claim C1 counterexample: the sequence `"a\r\n"` holds one record, but fed
one character at a time the framer emits the Records `["a", ""]` while fed in
a single chunk it emits `["a"]` — the split `\r\n` produces an extra empty
Record. -/
theorem C1_counterexample :
    emitRecords (feedMany [] (['a', '\r', '\n'].map fun c => [c])).1 ≠
      emitRecords (feed [] ['a', '\r', '\n']).1 := by decide

/-- Witness for C1 at the concrete two-record input `"ab\ncd\r\n"`. -/
theorem C1_framer_chunk_invariance_witness :
    ((extractLines ['a', 'b', '\n', 'c', 'd', '\r', '\n']).2 = [] ∧
      ∀ r ∈ (extractLines ['a', 'b', '\n', 'c', 'd', '\r', '\n']).1, r.length ≤ 256) ∧
    (((emitRecords (feedMany []
        (['a', 'b', '\n', 'c', 'd', '\r', '\n'].map fun c => [c])).1).filter
          fun r => !r.isEmpty) =
      ((emitRecords (feed [] ['a', 'b', '\n', 'c', 'd', '\r', '\n']).1).filter
          fun r => !r.isEmpty) ∧
    emitFragments (feedMany []
        (['a', 'b', '\n', 'c', 'd', '\r', '\n'].map fun c => [c])).1 = [] ∧
    emitFragments (feed [] ['a', 'b', '\n', 'c', 'd', '\r', '\n']).1 = []) :=
  ⟨⟨by decide, by decide⟩,
    C1_framer_chunk_invariance ['a', 'b', '\n', 'c', 'd', '\r', '\n']
      (by decide) (by decide)⟩

theorem emitFragments_append (a b : List Emit) :
    emitFragments (a ++ b) = emitFragments a ++ emitFragments b := by
  simp [emitFragments, List.filterMap_append]

theorem feed_no_overflow {buf c : List Char}
    (h : (extractLines (buf ++ c)).2.length ≤ 256) :
    emitFragments (feed buf c).1 = [] := by
  unfold feed
  by_cases hc : c.isEmpty
  · rw [if_pos hc]; rfl
  · rw [if_neg hc, if_neg (by intro hcon; omega)]
    exact emitFragments_map_record _

theorem feedMany_no_overflow (chunks : List (List Char)) : ∀ buf,
    noOverflow buf chunks = true →
    emitFragments (feedMany buf chunks).1 = [] := by
  induction chunks with
  | nil => intro buf _; rfl
  | cons c cs ih =>
    intro buf h
    rw [noOverflow, Bool.and_eq_true, decide_eq_true_eq] at h
    rw [feedMany]
    dsimp only
    rw [emitFragments_append, feed_no_overflow h.1, ih _ h.2]
    rfl

theorem flush_nonempty {r : List Char} (h : r ≠ []) :
    flush r = ([Emit.fragment r], []) := by
  unfold flush
  rw [if_pos h]

theorem flush_nil : flush [] = ([], []) := by
  unfold flush
  simp

/-- Claim C8: while the residual buffer stays at or below the 256-character
threshold, feeding never force-flushes a fragment, and a non-empty residual
is emitted exactly once, by the explicit `flush` (a second `flush` emits
nothing); and whenever the residual left by terminator extraction exceeds 256
characters, `feed` force-flushes it as a fragment and clears the buffer. -/
theorem C8_overflow_flush :
    (∀ chunks : List (List Char), noOverflow [] chunks = true →
      emitFragments (feedMany [] chunks).1 = [] ∧
      ((feedMany [] chunks).2 ≠ [] →
        flush (feedMany [] chunks).2 = ([Emit.fragment (feedMany [] chunks).2], []) ∧
        flush (flush (feedMany [] chunks).2).2 = ([], []))) ∧
    (∀ buf chunk : List Char, ¬chunk.isEmpty →
      256 < (extractLines (buf ++ chunk)).2.length →
      feed buf chunk = ((extractLines (buf ++ chunk)).1.map Emit.record ++
        [Emit.fragment (extractLines (buf ++ chunk)).2], [])) := by
  constructor
  · intro chunks h
    refine ⟨feedMany_no_overflow chunks [] h, fun hne => ⟨flush_nonempty hne, ?_⟩⟩
    rw [flush_nonempty hne]
    exact flush_nil
  · intro buf chunk hne hov
    unfold feed
    rw [if_neg hne, if_pos ⟨by intro he; rw [he] at hov; simp at hov, hov⟩]

set_option maxRecDepth 10000 in
/-- Witness for C8: two terminated chunks never overflow and the residual
`"e"` is flushed exactly once; a 300-character unterminated chunk is
force-flushed as a fragment. -/
theorem C8_overflow_flush_witness :
    (noOverflow [] [['a', 'b', '\n', 'c'], ['d', '\n', 'e']] = true ∧
      (emitFragments (feedMany [] [['a', 'b', '\n', 'c'], ['d', '\n', 'e']]).1 = [] ∧
        ((feedMany [] [['a', 'b', '\n', 'c'], ['d', '\n', 'e']]).2 ≠ [] →
          flush (feedMany [] [['a', 'b', '\n', 'c'], ['d', '\n', 'e']]).2 =
            ([Emit.fragment (feedMany [] [['a', 'b', '\n', 'c'], ['d', '\n', 'e']]).2], []) ∧
          flush (flush (feedMany [] [['a', 'b', '\n', 'c'], ['d', '\n', 'e']]).2).2 =
            ([], [])))) ∧
    (¬(List.replicate 300 'x').isEmpty ∧
      256 < (extractLines ([] ++ List.replicate 300 'x')).2.length ∧
      feed [] (List.replicate 300 'x') =
        ((extractLines ([] ++ List.replicate 300 'x')).1.map Emit.record ++
          [Emit.fragment (extractLines ([] ++ List.replicate 300 'x')).2], [])) :=
  ⟨⟨by decide, C8_overflow_flush.1 [['a', 'b', '\n', 'c'], ['d', '\n', 'e']] (by decide)⟩,
   by decide, by decide,
   C8_overflow_flush.2 [] (List.replicate 300 'x') (by decide) (by decide)⟩

/-! ### Dispatcher lemmas -/

/-- Claim C2 (amended): every Record that is non-empty after stripping its
terminator is handed in full to `TelemetryState.ingest_line`, whatever the
filter configuration and whatever the classification outcome; a Record that
is empty after stripping is dropped without being ingested. -/
theorem C2_unconditional_ingest (f : LogFilter) (pending : List (List Char))
    (line : List Char) (h : rstripTerm line ≠ []) :
    (handle_line f pending line).ingested = some (rstripTerm line) := by
  unfold handle_line
  rw [if_neg (by simpa using h)]

/-- Claim C2 counterexample: a Record that is empty after stripping its
terminator is dropped by `handle_line` without the ingestion step being
invoked. -/
theorem C2_counterexample :
    (handle_line (mkLogLineFilter false none) [] ['\r', '\n']).ingested = none := by
  decide

/-- Witness for C2 at a concrete plain-text record. -/
theorem C2_unconditional_ingest_witness :
    rstripTerm ['h', 'i', '\n'] ≠ [] ∧
    (handle_line (mkLogLineFilter false none) [] ['h', 'i', '\n']).ingested =
      some (rstripTerm ['h', 'i', '\n']) :=
  ⟨by decide,
   C2_unconditional_ingest (mkLogLineFilter false none) [] ['h', 'i', '\n'] (by decide)⟩

theorem splitLoop_nil (f : ℕ) : splitLoop f [] = [] := by
  cases f with
  | zero => rfl
  | succ f => rw [splitLoop]; simp

theorem findLogHeaderPos_spec {l : List Char} {idx : ℕ}
    (h : findLogHeaderPos l = some idx) :
    idx < l.length ∧ isLogHeaderAt (l.drop idx) = true := by
  induction l generalizing idx with
  | nil => simp [findLogHeaderPos] at h
  | cons c cs ih =>
    rw [findLogHeaderPos] at h
    by_cases hat : isLogHeaderAt (c :: cs) = true
    · rw [if_pos hat] at h
      have hidx : idx = 0 := by
        simp at h
        omega
      subst hidx
      exact ⟨by simp, hat⟩
    · rw [if_neg hat] at h
      simp only [Option.map_eq_some'] at h
      obtain ⟨j, hj, rfl⟩ := h
      obtain ⟨h1, h2⟩ := ih hj
      exact ⟨by simpa using h1, by simpa using h2⟩

theorem findLogHeaderPos_none {l : List Char}
    (h : ∀ i, isLogHeaderAt (l.drop i) = false) : findLogHeaderPos l = none := by
  induction l with
  | nil => rfl
  | cons c cs ih =>
    rw [findLogHeaderPos]
    rw [if_neg (by simpa using h 0)]
    rw [ih fun i => by simpa using h (i + 1)]
    rfl

theorem splitLine_eq (text : List Char) (hni : ¬text.isEmpty = true) :
    splitLine text =
      (if ansiLeadLen text = 0 then [] else [(text.take (ansiLeadLen text), SegKind.cli)]) ++
        splitLoop (text.drop (ansiLeadLen text)).length (text.drop (ansiLeadLen text)) := by
  unfold splitLine
  rw [if_neg hni]

theorem findLogHeaderPos_none_mem {l : List Char} (h : findLogHeaderPos l = none) :
    ∀ i, isLogHeaderAt (l.drop i) = false := by
  induction l with
  | nil => intro i; rw [List.drop_nil]; rfl
  | cons c cs ih =>
    intro i
    rw [findLogHeaderPos] at h
    cases hat : isLogHeaderAt (c :: cs) with
    | true => rw [if_pos hat] at h; simp at h
    | false =>
      rw [if_neg (by simp [hat])] at h
      simp only [Option.map_eq_none'] at h
      cases i with
      | zero => simpa using hat
      | succ i => simpa using ih h i

theorem splitLoop_under_h (suffix : List Char)
    (h : ∀ i, i < suffix.length → isLogHeaderAt (suffix.drop i) = true →
      (logLineMatch (suffix.drop i)).isSome = true) :
    ((splitLoop suffix.length suffix).map Prod.fst).flatten = suffix ∧
    ∀ seg ∈ splitLoop suffix.length suffix, seg.2 = SegKind.log →
      (logLineMatch seg.1).isSome = true := by
  cases hs : suffix with
  | nil => simp [splitLoop_nil]
  | cons c cs =>
    subst hs
    rw [show (c :: cs).length = cs.length + 1 from rfl, splitLoop,
      if_neg (by simp)]
    cases hfp : findLogHeaderPos (c :: cs) with
    | none => simp
    | some idx =>
      dsimp only
      obtain ⟨hidx, hat⟩ := findLogHeaderPos_spec hfp
      have hsome := h idx hidx hat
      cases hm : logLineMatch ((c :: cs).drop idx) with
      | none => rw [hm] at hsome; simp at hsome
      | some m =>
        dsimp only
        constructor
        · by_cases htake : ((c :: cs).take idx).isEmpty = true
          · rw [if_pos htake]
            have : (c :: cs).take idx = [] := by simpa using htake
            have hidx0 : idx = 0 := by
              rcases List.take_eq_nil_iff.mp this with h0 | h0
              · exact h0
              · simp at h0
            subst hidx0
            simp
          · rw [if_neg htake]
            simp [List.take_append_drop]
        · intro seg hseg hkind
          by_cases htake : ((c :: cs).take idx).isEmpty = true
          · rw [if_pos htake] at hseg
            simp at hseg
            rw [hseg]
            simp [hm]
          · rw [if_neg htake] at hseg
            simp at hseg
            rcases hseg with hseg | hseg
            · rw [hseg] at hkind
              simp at hkind
            · rw [hseg]
              simp [hm]

/-- Claim C3 (amended): for every Record in which each occurrence of a
severity-prefix (`"E ("`, `"W ("`, ...) begins a fully recognized
structured-log header, the segments of `_split_line` concatenate, in order,
to exactly the Record; every `log` segment carries a recognized header (all
other text becomes plain segments); and a Record with no severity-prefix
occurrence and no leading ANSI escape yields exactly one plain segment equal
to the whole Record.  (Without the proviso, characters can be dropped: a
failed header parse at a found prefix advances the scan cursor without
emitting the skipped text — see the counterexample.) -/
theorem C3_split_concat (text : List Char)
    (h : ∀ i, i < text.length → isLogHeaderAt (text.drop i) = true →
      (logLineMatch (text.drop i)).isSome = true) :
    ((splitLine text).map Prod.fst).flatten = text ∧
    (∀ seg ∈ splitLine text, seg.2 = SegKind.log →
      (logLineMatch seg.1).isSome = true) ∧
    ((∀ i, isLogHeaderAt (text.drop i) = false) → ansiLeadLen text = 0 →
      text ≠ [] → splitLine text = [(text, SegKind.cli)]) := by
  by_cases hni : text.isEmpty = true
  · have htext : text = [] := by simpa using hni
    subst htext
    refine ⟨rfl, by simp [splitLine], fun _ _ hne => absurd rfl hne⟩
  · have hplain : ∀ i, i < (text.drop (ansiLeadLen text)).length →
        isLogHeaderAt ((text.drop (ansiLeadLen text)).drop i) = true →
        (logLineMatch ((text.drop (ansiLeadLen text)).drop i)).isSome = true := by
      intro i hi
      rw [List.drop_drop]
      intro hat
      refine h (ansiLeadLen text + i) ?_ hat
      simp only [List.length_drop] at hi
      omega
    obtain ⟨hjoin, hlog⟩ := splitLoop_under_h (text.drop (ansiLeadLen text)) hplain
    rw [splitLine_eq text hni]
    refine ⟨?_, ?_, ?_⟩
    · by_cases hpl : ansiLeadLen text = 0
      · simp only [hpl, if_pos rfl]
        simpa [hpl] using hjoin
      · rw [if_neg hpl]
        simp only [List.map_append, List.flatten_append]
        rw [hjoin]
        simp [List.take_append_drop]
    · intro seg hseg hkind
      rw [List.mem_append] at hseg
      rcases hseg with hmem | hmem
      · by_cases hpl : ansiLeadLen text = 0
        · rw [if_pos hpl] at hmem
          simp at hmem
        · rw [if_neg hpl] at hmem
          simp at hmem
          rw [hmem] at hkind
          simp at hkind
      · exact hlog seg hmem hkind
    · intro hnone hpl hne
      rw [if_pos hpl]
      have hdrop : text.drop (ansiLeadLen text) = text := by rw [hpl]; rfl
      rw [hdrop]
      cases htext : text with
      | nil => exact absurd htext hne
      | cons c cs =>
        rw [show (c :: cs).length = cs.length + 1 from rfl, splitLoop,
          if_neg (by simp)]
        rw [findLogHeaderPos_none (by
          intro i
          have := hnone i
          rw [htext] at this
          exact this)]
        simp

/-- Claim C3 counterexample: the Record `"E (oops"` contains a severity
prefix that is not a recognized header; `_split_line` drops the characters
`"E"` and yields the single plain segment `" (oops"`, so the segments do not
concatenate to the Record and the no-header Record is not one whole plain
segment. -/
theorem C3_counterexample :
    (((splitLine ['E', ' ', '(', 'o', 'o', 'p', 's']).map Prod.fst).flatten ≠
      ['E', ' ', '(', 'o', 'o', 'p', 's']) ∧
    splitLine ['E', ' ', '(', 'o', 'o', 'p', 's'] ≠
      [(['E', ' ', '(', 'o', 'o', 'p', 's'], SegKind.cli)] := by decide

/-- Witness for C3 at `"pre E (123) TAG: hello"` (prefix occurrence parses as
a header) and, for the final conjunct, at `"hello"` (no prefix occurrence). -/
theorem C3_split_concat_witness :
    ((∀ i, i < "pre E (123) TAG: hello".toList.length →
        isLogHeaderAt ("pre E (123) TAG: hello".toList.drop i) = true →
        (logLineMatch ("pre E (123) TAG: hello".toList.drop i)).isSome = true) ∧
      ((splitLine "pre E (123) TAG: hello".toList).map Prod.fst).flatten =
        "pre E (123) TAG: hello".toList) ∧
    ((∀ i, isLogHeaderAt ("hello".toList.drop i) = false) ∧
      splitLine "hello".toList = [("hello".toList, SegKind.cli)]) :=
  ⟨⟨by decide, (C3_split_concat "pre E (123) TAG: hello".toList (by decide)).1⟩,
   ⟨findLogHeaderPos_none_mem (by decide),
    (C3_split_concat "hello".toList (by decide)).2.2
      (findLogHeaderPos_none_mem (by decide)) (by decide) (by decide)⟩⟩

theorem ansiEscLen_of_ne {c : Char} (cs : List Char) (h : ¬(c = '\x1b')) :
    ansiEscLen (c :: cs) = none := by
  cases cs with
  | nil => rfl
  | cons b rest =>
    simp only [ansiEscLen]
    rw [if_neg (by tauto)]

theorem ansiLeadLen_of_ne {c : Char} (cs : List Char) (h : ¬(c = '\x1b')) :
    ansiLeadLen (c :: cs) = 0 := by
  unfold ansiLeadLen
  rw [show (c :: cs).length = cs.length + 1 from rfl, ansiLeadLenAux,
    ansiEscLen_of_ne cs h]

theorem logLineMatch_head {l : List Char} {m : LogMatch} (h : logLineMatch l = some m) :
    isLogHeaderAt l = true := by
  unfold logLineMatch at h
  split at h
  next lvl r1 =>
    by_cases hl : isLevel lvl = true
    · simp [isLogHeaderAt, hl]
    · rw [if_neg hl] at h
      simp at h
  next => simp at h

theorem isLevel_ne_esc {c : Char} (h : isLevel c = true) : ¬(c = '\x1b') := by
  simp only [isLevel, Bool.or_eq_true, decide_eq_true_eq] at h
  rcases h with ((((rfl | rfl) | rfl) | rfl) | rfl) <;> decide

theorem logLineMatch_ne_nil {m : LogMatch} : logLineMatch [] = some m → False := by
  intro h
  simp [logLineMatch] at h

theorem stripAnsiLead_of_match {l : List Char} {m : LogMatch}
    (h : logLineMatch l = some m) : stripAnsiLead l = l := by
  cases l with
  | nil => rfl
  | cons c cs =>
    have hat : isLogHeaderAt (c :: cs) = true := logLineMatch_head h
    have hl : isLevel c = true := by
      cases cs with
      | nil => simp [isLogHeaderAt] at hat
      | cons b rest =>
        cases rest with
        | nil => simp [isLogHeaderAt] at hat
        | cons d rest2 =>
          simp only [isLogHeaderAt, Bool.and_eq_true] at hat
          exact hat.1.1
    unfold stripAnsiLead
    rw [ansiLeadLen_of_ne cs (isLevel_ne_esc hl)]
    rfl

/-- Claim C4: routing of a recognized log segment.  It is withheld from the
monitor queue exactly when its upper-cased tag is in
`SUPPRESSED_MONITOR_TAGS = {FUSION, MOTION, FLEX}` (and otherwise always
published there, regardless of the filter); independently it reaches the CLI
queue exactly when the filter allows it; and `_LogLineFilter.allows` built by
`mkLogLineFilter` coincides with the spec's filter semantics (`show all`
passes everything, otherwise the upper-cased tag must be in the normalized
allow-list, an absent or empty allow-list passes nothing) while an
unstructured segment (no match) always passes the filter. -/
theorem C4_routing (f : LogFilter) (pending : List (List Char)) (text : List Char)
    (m : LogMatch) (hm : logLineMatch (stripAnsiLead text) = some m) :
    ((emitSegments f [(text, SegKind.log)] pending).1 =
      if upperStr (stripStr m.tag) ∈ suppressedMonitorTags then [] else [text]) ∧
    ((emitSegments f [(text, SegKind.log)] pending).2.1 =
      if allows f (some m) = true then [text ++ ['\n']] else []) ∧
    (∀ show_logs allowed_tags,
      allows (mkLogLineFilter show_logs allowed_tags) (some m) =
        specFilterPass show_logs allowed_tags (upperStr (stripStr m.tag))) ∧
    (∀ g : LogFilter, allows g none = true) := by
  have hne : ¬text.isEmpty = true := by
    intro he
    have htext : text = [] := by simpa using he
    subst htext
    exact logLineMatch_ne_nil hm
  refine ⟨?_, ?_, ?_, fun g => rfl⟩
  · rw [emitSegments, if_neg hne]
    dsimp only
    rw [hm]
    dsimp only
    split <;> simp [emitSegments]
  · rw [emitSegments, if_neg hne]
    dsimp only
    rw [hm]
    dsimp only
    split <;> simp [emitSegments]
  · intro show_logs allowed_tags
    unfold allows specFilterPass mkLogLineFilter
    cases show_logs with
    | true => simp
    | false =>
      simp only [Bool.false_eq_true, if_false]
      cases allowed_tags with
      | none => rfl
      | some l =>
        dsimp only
        by_cases hl : l.isEmpty = true
        · rw [if_pos hl, if_pos hl]
        · rw [if_neg hl, if_neg hl]

/-- Witness for C4 with the filter `show_logs := false`,
allow-list `{"BATT"}`, and the segment `"E (1234) MIDI: note on"`. -/
theorem C4_routing_witness :
    logLineMatch (stripAnsiLead "E (1234) MIDI: note on".toList) =
      some ⟨'E', "1234".toList, "MIDI".toList, "note on".toList⟩ ∧
    (((emitSegments (mkLogLineFilter false (some ["BATT".toList]))
        [("E (1234) MIDI: note on".toList, SegKind.log)] []).1 =
      if upperStr (stripStr "MIDI".toList) ∈ suppressedMonitorTags then []
      else ["E (1234) MIDI: note on".toList]) ∧
    ((emitSegments (mkLogLineFilter false (some ["BATT".toList]))
        [("E (1234) MIDI: note on".toList, SegKind.log)] []).2.1 =
      if allows (mkLogLineFilter false (some ["BATT".toList]))
          (some ⟨'E', "1234".toList, "MIDI".toList, "note on".toList⟩) = true
      then ["E (1234) MIDI: note on".toList ++ ['\n']] else []) ∧
    (∀ show_logs allowed_tags,
      allows (mkLogLineFilter show_logs allowed_tags)
          (some ⟨'E', "1234".toList, "MIDI".toList, "note on".toList⟩) =
        specFilterPass show_logs allowed_tags
          (upperStr (stripStr "MIDI".toList))) ∧
    (∀ g : LogFilter, allows g none = true)) :=
  ⟨by decide,
   C4_routing (mkLogLineFilter false (some ["BATT".toList])) []
     "E (1234) MIDI: note on".toList
     ⟨'E', "1234".toList, "MIDI".toList, "note on".toList⟩ (by decide)⟩

theorem splitLoop_full_match {plain : List Char} {m : LogMatch}
    (hm : logLineMatch plain = some m) :
    splitLoop plain.length plain = [(plain, SegKind.log)] := by
  cases plain with
  | nil => exact absurd hm (by simp [logLineMatch])
  | cons c cs =>
    have hat : isLogHeaderAt (c :: cs) = true := logLineMatch_head hm
    rw [show (c :: cs).length = cs.length + 1 from rfl, splitLoop, if_neg (by simp)]
    rw [show findLogHeaderPos (c :: cs) = some 0 from by
      rw [findLogHeaderPos, if_pos hat]]
    dsimp only
    simp only [List.drop_zero, List.take_zero]
    rw [hm]
    simp

/-- Claim C7 (amended/corrected): for a Record made of ANSI color escapes
immediately followed by a recognized structured-log header, `_split_line`
emits the ANSI prefix as its own separate plain segment and the header
(without the ANSI bytes) as the log segment; the two segments concatenate to
the Record; so the text published to the monitor queue for the log segment
does NOT retain the ANSI prefix — the ANSI bytes instead land in the pending
plain-text buffer. -/
theorem C7_ansi_split (text : List Char) (m : LogMatch)
    (hpl : 0 < ansiLeadLen text)
    (hm : logLineMatch (text.drop (ansiLeadLen text)) = some m) :
    splitLine text =
      [(text.take (ansiLeadLen text), SegKind.cli),
       (text.drop (ansiLeadLen text), SegKind.log)] ∧
    text.take (ansiLeadLen text) ++ text.drop (ansiLeadLen text) = text ∧
    ∀ f pending,
      ((emitSegments f (splitLine text) pending).1 =
        if upperStr (stripStr m.tag) ∈ suppressedMonitorTags then []
        else [text.drop (ansiLeadLen text)]) ∧
      (emitSegments f (splitLine text) pending).2.2 =
        pending ++ [text.take (ansiLeadLen text)] := by
  have hne : text ≠ [] := by
    intro he
    subst he
    simp [ansiLeadLen, ansiLeadLenAux] at hpl
  have hni : ¬text.isEmpty = true := by simpa using hne
  have hsplit : splitLine text =
      [(text.take (ansiLeadLen text), SegKind.cli),
       (text.drop (ansiLeadLen text), SegKind.log)] := by
    rw [splitLine_eq text hni, if_neg (by omega), splitLoop_full_match hm]
    rfl
  refine ⟨hsplit, List.take_append_drop _ _, ?_⟩
  intro f pending
  have htake : ¬(text.take (ansiLeadLen text)).isEmpty = true := by
    simp only [List.isEmpty_iff, List.take_eq_nil_iff]
    push_neg
    exact ⟨by omega, hne⟩
  have hdropne : ¬(text.drop (ansiLeadLen text)).isEmpty = true := by
    intro he
    have hd : text.drop (ansiLeadLen text) = [] := by simpa using he
    rw [hd] at hm
    exact logLineMatch_ne_nil hm
  rw [hsplit, emitSegments, if_neg htake]
  try dsimp only
  rw [emitSegments, if_neg hdropne]
  try dsimp only
  rw [stripAnsiLead_of_match hm, hm]
  try dsimp only
  constructor
  · split <;> simp [emitSegments]
  · simp [emitSegments]

/-- Claim C7 counterexample: for the Record `"\x1b[31mE (1) TAG: msg"` the
splitter emits the ANSI escapes as a separate plain segment, no log segment
contains them, and the monitor queue receives the header without its ANSI
prefix — contradicting the claim that the log segment includes the escapes. -/
theorem C7_counterexample :
    splitLine "\x1b[31mE (1) TAG: msg".toList =
      [("\x1b[31m".toList, SegKind.cli), ("E (1) TAG: msg".toList, SegKind.log)] ∧
    (∀ seg ∈ splitLine "\x1b[31mE (1) TAG: msg".toList,
      seg.2 = SegKind.log → seg.1 ≠ "\x1b[31mE (1) TAG: msg".toList) ∧
    (emitSegments (mkLogLineFilter true none)
      (splitLine "\x1b[31mE (1) TAG: msg".toList) []).1 =
      ["E (1) TAG: msg".toList] := by decide

/-- Witness for C7 at `"\x1b[31mE (1) TAG: msg"`. -/
theorem C7_ansi_split_witness :
    (0 < ansiLeadLen "\x1b[31mE (1) TAG: msg".toList ∧
      logLineMatch ("\x1b[31mE (1) TAG: msg".toList.drop
          (ansiLeadLen "\x1b[31mE (1) TAG: msg".toList)) =
        some ⟨'E', "1".toList, "TAG".toList, "msg".toList⟩) ∧
    (splitLine "\x1b[31mE (1) TAG: msg".toList =
      [("\x1b[31mE (1) TAG: msg".toList.take
          (ansiLeadLen "\x1b[31mE (1) TAG: msg".toList), SegKind.cli),
       ("\x1b[31mE (1) TAG: msg".toList.drop
          (ansiLeadLen "\x1b[31mE (1) TAG: msg".toList), SegKind.log)] ∧
    "\x1b[31mE (1) TAG: msg".toList.take (ansiLeadLen "\x1b[31mE (1) TAG: msg".toList) ++
        "\x1b[31mE (1) TAG: msg".toList.drop
          (ansiLeadLen "\x1b[31mE (1) TAG: msg".toList) =
      "\x1b[31mE (1) TAG: msg".toList ∧
    ∀ f pending,
      ((emitSegments f (splitLine "\x1b[31mE (1) TAG: msg".toList) pending).1 =
        if upperStr (stripStr "TAG".toList) ∈ suppressedMonitorTags then []
        else ["\x1b[31mE (1) TAG: msg".toList.drop
          (ansiLeadLen "\x1b[31mE (1) TAG: msg".toList)]) ∧
      (emitSegments f (splitLine "\x1b[31mE (1) TAG: msg".toList) pending).2.2 =
        pending ++ ["\x1b[31mE (1) TAG: msg".toList.take
          (ansiLeadLen "\x1b[31mE (1) TAG: msg".toList)]) :=
  ⟨⟨by decide, by decide⟩,
   C7_ansi_split "\x1b[31mE (1) TAG: msg".toList
     ⟨'E', "1".toList, "TAG".toList, "msg".toList⟩ (by decide) (by decide)⟩

/-! ### Telemetry lemmas -/

theorem applyFusion_keep_latest_sflp (now : ℚ) (line : List Char) (st : TState) :
    (applyFusion now line st).1.latest_sflp = st.latest_sflp := by
  unfold applyFusion
  split <;> first | rfl | (split <;> rfl)

theorem applyFusion_keep_latest_position (now : ℚ) (line : List Char) (st : TState) :
    (applyFusion now line st).1.latest_position = st.latest_position := by
  unfold applyFusion
  split <;> first | rfl | (split <;> rfl)

theorem applyFusion_keep_latest_mag (now : ℚ) (line : List Char) (st : TState) :
    (applyFusion now line st).1.latest_mag = st.latest_mag := by
  unfold applyFusion
  split <;> first | rfl | (split <;> rfl)

theorem applyFusion_keep_last_punch (now : ℚ) (line : List Char) (st : TState) :
    (applyFusion now line st).1.last_punch = st.last_punch := by
  unfold applyFusion
  split <;> first | rfl | (split <;> rfl)

theorem applyFusion_keep_flex_value (now : ℚ) (line : List Char) (st : TState) :
    (applyFusion now line st).1.flex_value = st.flex_value := by
  unfold applyFusion
  split <;> first | rfl | (split <;> rfl)

theorem applyFusion_keep_flex_raw_median (now : ℚ) (line : List Char) (st : TState) :
    (applyFusion now line st).1.flex_raw_median = st.flex_raw_median := by
  unfold applyFusion
  split <;> first | rfl | (split <;> rfl)

theorem applyFusion_keep_flex_midi (now : ℚ) (line : List Char) (st : TState) :
    (applyFusion now line st).1.flex_midi = st.flex_midi := by
  unfold applyFusion
  split <;> first | rfl | (split <;> rfl)

theorem applySflp_keep_latest_fusion (now : ℚ) (line : List Char) (st : TState) :
    (applySflp now line st).1.latest_fusion = st.latest_fusion := by
  unfold applySflp
  split <;> first | rfl | (split <;> rfl)

theorem applySflp_keep_latest_position (now : ℚ) (line : List Char) (st : TState) :
    (applySflp now line st).1.latest_position = st.latest_position := by
  unfold applySflp
  split <;> first | rfl | (split <;> rfl)

theorem applySflp_keep_latest_mag (now : ℚ) (line : List Char) (st : TState) :
    (applySflp now line st).1.latest_mag = st.latest_mag := by
  unfold applySflp
  split <;> first | rfl | (split <;> rfl)

theorem applySflp_keep_last_punch (now : ℚ) (line : List Char) (st : TState) :
    (applySflp now line st).1.last_punch = st.last_punch := by
  unfold applySflp
  split <;> first | rfl | (split <;> rfl)

theorem applySflp_keep_flex_value (now : ℚ) (line : List Char) (st : TState) :
    (applySflp now line st).1.flex_value = st.flex_value := by
  unfold applySflp
  split <;> first | rfl | (split <;> rfl)

theorem applySflp_keep_flex_raw_median (now : ℚ) (line : List Char) (st : TState) :
    (applySflp now line st).1.flex_raw_median = st.flex_raw_median := by
  unfold applySflp
  split <;> first | rfl | (split <;> rfl)

theorem applySflp_keep_flex_midi (now : ℚ) (line : List Char) (st : TState) :
    (applySflp now line st).1.flex_midi = st.flex_midi := by
  unfold applySflp
  split <;> first | rfl | (split <;> rfl)

theorem applyPosition_keep_latest_fusion (now : ℚ) (line : List Char) (st : TState) :
    (applyPosition now line st).1.latest_fusion = st.latest_fusion := by
  unfold applyPosition
  split <;> first | rfl | (split <;> rfl)

theorem applyPosition_keep_latest_sflp (now : ℚ) (line : List Char) (st : TState) :
    (applyPosition now line st).1.latest_sflp = st.latest_sflp := by
  unfold applyPosition
  split <;> first | rfl | (split <;> rfl)

theorem applyPosition_keep_latest_mag (now : ℚ) (line : List Char) (st : TState) :
    (applyPosition now line st).1.latest_mag = st.latest_mag := by
  unfold applyPosition
  split <;> first | rfl | (split <;> rfl)

theorem applyPosition_keep_last_punch (now : ℚ) (line : List Char) (st : TState) :
    (applyPosition now line st).1.last_punch = st.last_punch := by
  unfold applyPosition
  split <;> first | rfl | (split <;> rfl)

theorem applyPosition_keep_flex_value (now : ℚ) (line : List Char) (st : TState) :
    (applyPosition now line st).1.flex_value = st.flex_value := by
  unfold applyPosition
  split <;> first | rfl | (split <;> rfl)

theorem applyPosition_keep_flex_raw_median (now : ℚ) (line : List Char) (st : TState) :
    (applyPosition now line st).1.flex_raw_median = st.flex_raw_median := by
  unfold applyPosition
  split <;> first | rfl | (split <;> rfl)

theorem applyPosition_keep_flex_midi (now : ℚ) (line : List Char) (st : TState) :
    (applyPosition now line st).1.flex_midi = st.flex_midi := by
  unfold applyPosition
  split <;> first | rfl | (split <;> rfl)

theorem applyMag_keep_latest_fusion (now : ℚ) (line : List Char) (st : TState) :
    (applyMag now line st).1.latest_fusion = st.latest_fusion := by
  unfold applyMag
  split <;> first | rfl | (split <;> rfl)

theorem applyMag_keep_latest_sflp (now : ℚ) (line : List Char) (st : TState) :
    (applyMag now line st).1.latest_sflp = st.latest_sflp := by
  unfold applyMag
  split <;> first | rfl | (split <;> rfl)

theorem applyMag_keep_latest_position (now : ℚ) (line : List Char) (st : TState) :
    (applyMag now line st).1.latest_position = st.latest_position := by
  unfold applyMag
  split <;> first | rfl | (split <;> rfl)

theorem applyMag_keep_last_punch (now : ℚ) (line : List Char) (st : TState) :
    (applyMag now line st).1.last_punch = st.last_punch := by
  unfold applyMag
  split <;> first | rfl | (split <;> rfl)

theorem applyMag_keep_flex_value (now : ℚ) (line : List Char) (st : TState) :
    (applyMag now line st).1.flex_value = st.flex_value := by
  unfold applyMag
  split <;> first | rfl | (split <;> rfl)

theorem applyMag_keep_flex_raw_median (now : ℚ) (line : List Char) (st : TState) :
    (applyMag now line st).1.flex_raw_median = st.flex_raw_median := by
  unfold applyMag
  split <;> first | rfl | (split <;> rfl)

theorem applyMag_keep_flex_midi (now : ℚ) (line : List Char) (st : TState) :
    (applyMag now line st).1.flex_midi = st.flex_midi := by
  unfold applyMag
  split <;> first | rfl | (split <;> rfl)

theorem applyPunch_keep_latest_fusion (now : ℚ) (line : List Char) (st : TState) :
    (applyPunch now line st).1.latest_fusion = st.latest_fusion := by
  unfold applyPunch
  split <;> first | rfl | (split <;> rfl)

theorem applyPunch_keep_latest_sflp (now : ℚ) (line : List Char) (st : TState) :
    (applyPunch now line st).1.latest_sflp = st.latest_sflp := by
  unfold applyPunch
  split <;> first | rfl | (split <;> rfl)

theorem applyPunch_keep_latest_position (now : ℚ) (line : List Char) (st : TState) :
    (applyPunch now line st).1.latest_position = st.latest_position := by
  unfold applyPunch
  split <;> first | rfl | (split <;> rfl)

theorem applyPunch_keep_latest_mag (now : ℚ) (line : List Char) (st : TState) :
    (applyPunch now line st).1.latest_mag = st.latest_mag := by
  unfold applyPunch
  split <;> first | rfl | (split <;> rfl)

theorem applyPunch_keep_flex_value (now : ℚ) (line : List Char) (st : TState) :
    (applyPunch now line st).1.flex_value = st.flex_value := by
  unfold applyPunch
  split <;> first | rfl | (split <;> rfl)

theorem applyPunch_keep_flex_raw_median (now : ℚ) (line : List Char) (st : TState) :
    (applyPunch now line st).1.flex_raw_median = st.flex_raw_median := by
  unfold applyPunch
  split <;> first | rfl | (split <;> rfl)

theorem applyPunch_keep_flex_midi (now : ℚ) (line : List Char) (st : TState) :
    (applyPunch now line st).1.flex_midi = st.flex_midi := by
  unfold applyPunch
  split <;> first | rfl | (split <;> rfl)

theorem applyFlex_keep_latest_fusion (now : ℚ) (line : List Char) (st : TState) :
    (applyFlex now line st).1.latest_fusion = st.latest_fusion := by
  unfold applyFlex
  split <;> first | rfl | (split <;> rfl)

theorem applyFlex_keep_latest_sflp (now : ℚ) (line : List Char) (st : TState) :
    (applyFlex now line st).1.latest_sflp = st.latest_sflp := by
  unfold applyFlex
  split <;> first | rfl | (split <;> rfl)

theorem applyFlex_keep_latest_position (now : ℚ) (line : List Char) (st : TState) :
    (applyFlex now line st).1.latest_position = st.latest_position := by
  unfold applyFlex
  split <;> first | rfl | (split <;> rfl)

theorem applyFlex_keep_latest_mag (now : ℚ) (line : List Char) (st : TState) :
    (applyFlex now line st).1.latest_mag = st.latest_mag := by
  unfold applyFlex
  split <;> first | rfl | (split <;> rfl)

theorem applyFlex_keep_last_punch (now : ℚ) (line : List Char) (st : TState) :
    (applyFlex now line st).1.last_punch = st.last_punch := by
  unfold applyFlex
  split <;> first | rfl | (split <;> rfl)

theorem applyFusion_change (now : ℚ) (line : List Char) (st : TState) :
    (applyFusion now line st).1.latest_fusion = st.latest_fusion ∨
      ∃ s q, searchWith matchFusionAt line = some s ∧ parse_quat s = some q ∧
        (applyFusion now line st).1.latest_fusion = some q := by
  unfold applyFusion
  cases hs : searchWith matchFusionAt line with
  | none => exact Or.inl rfl
  | some p =>
    dsimp only
    cases hq : parse_quat p with
    | none => exact Or.inl rfl
    | some q => exact Or.inr ⟨p, q, rfl, hq, rfl⟩

theorem applySflp_change (now : ℚ) (line : List Char) (st : TState) :
    (applySflp now line st).1.latest_sflp = st.latest_sflp ∨
      ∃ s q, searchWith matchSflpAt line = some s ∧ parse_quat s = some q ∧
        (applySflp now line st).1.latest_sflp = some q := by
  unfold applySflp
  cases hs : searchWith matchSflpAt line with
  | none => exact Or.inl rfl
  | some p =>
    dsimp only
    cases hq : parse_quat p with
    | none => exact Or.inl rfl
    | some q => exact Or.inr ⟨p, q, rfl, hq, rfl⟩

theorem applyPosition_change (now : ℚ) (line : List Char) (st : TState) :
    (applyPosition now line st).1.latest_position = st.latest_position ∨
      ∃ s v, searchWith matchPosAt line = some s ∧ parse_vec3 s = some v ∧
        (applyPosition now line st).1.latest_position = some v := by
  unfold applyPosition
  cases hs : searchWith matchPosAt line with
  | none => exact Or.inl rfl
  | some p =>
    dsimp only
    cases hv : parse_vec3 p with
    | none => exact Or.inl rfl
    | some v => exact Or.inr ⟨p, v, rfl, hv, rfl⟩

theorem applyMag_change (now : ℚ) (line : List Char) (st : TState) :
    (applyMag now line st).1.latest_mag = st.latest_mag ∨
      ∃ s v, searchWith matchMagAt line = some s ∧ parse_vec3 s = some v ∧
        (applyMag now line st).1.latest_mag = some v := by
  unfold applyMag
  cases hs : searchWith matchMagAt line with
  | none => exact Or.inl rfl
  | some p =>
    dsimp only
    cases hv : parse_vec3 p with
    | none => exact Or.inl rfl
    | some v => exact Or.inr ⟨p, v, rfl, hv, rfl⟩

theorem applyPunch_change (now : ℚ) (line : List Char) (st : TState) :
    (applyPunch now line st).1.last_punch = st.last_punch ∨
      ∃ g v h w, searchWith matchPunchAt line = some g ∧
        parseFloat g.1 = some (FloatVal.fin v) ∧
        parseFloat g.2.1 = some (FloatVal.fin h) ∧
        parseFloat g.2.2 = some (FloatVal.fin w) ∧
        (applyPunch now line st).1.last_punch = some (v, h, w) := by
  unfold applyPunch
  cases hs : searchWith matchPunchAt line with
  | none => exact Or.inl rfl
  | some g =>
    dsimp only
    split
    next v h w h1 h2 h3 =>
      exact Or.inr ⟨g, v, h, w, rfl, h1, h2, h3, rfl⟩
    next => exact Or.inl rfl

theorem applyFlex_change (now : ℚ) (line : List Char) (st : TState) :
    ((applyFlex now line st).1.flex_value = st.flex_value ∧
      (applyFlex now line st).1.flex_raw_median = st.flex_raw_median ∧
      (applyFlex now line st).1.flex_midi = st.flex_midi) ∨
      ∃ g, searchWith matchFlexAt line = some g ∧
        (applyFlex now line st).1.flex_value = some (natOfDigits g.2.1) ∧
        (applyFlex now line st).1.flex_raw_median = some (natOfDigits g.2.2.1) ∧
        (applyFlex now line st).1.flex_midi = some (natOfDigits g.2.2.2) := by
  unfold applyFlex
  cases hs : searchWith matchFlexAt line with
  | none => exact Or.inl ⟨rfl, rfl, rfl⟩
  | some g =>
    dsimp only
    exact Or.inr ⟨g, rfl, rfl, rfl, rfl⟩

theorem applyFusion_reject (now : ℚ) (line : List Char) (st : TState)
    (h : ((searchWith matchFusionAt line).all fun s => (parse_quat s).isNone) = true) :
    (applyFusion now line st).1 = st := by
  unfold applyFusion
  cases hs : searchWith matchFusionAt line with
  | none => rfl
  | some p =>
    dsimp only
    rw [hs] at h
    simp only [Option.all_some] at h
    cases hq : parse_quat p with
    | none => rfl
    | some q => rw [hq] at h; simp at h

theorem applySflp_reject (now : ℚ) (line : List Char) (st : TState)
    (h : ((searchWith matchSflpAt line).all fun s => (parse_quat s).isNone) = true) :
    (applySflp now line st).1 = st := by
  unfold applySflp
  cases hs : searchWith matchSflpAt line with
  | none => rfl
  | some p =>
    dsimp only
    rw [hs] at h
    simp only [Option.all_some] at h
    cases hq : parse_quat p with
    | none => rfl
    | some q => rw [hq] at h; simp at h

theorem ingest_line_fusion_proj (now : ℚ) (st : TState) (line : List Char) :
    (ingest_line now st line).latest_fusion = (applyFusion now line st).1.latest_fusion := by
  unfold ingest_line
  dsimp only
  split
  · simp only [applySflp_keep_latest_fusion, applyPosition_keep_latest_fusion, applyMag_keep_latest_fusion, applyPunch_keep_latest_fusion, applyFlex_keep_latest_fusion]
  · dsimp only
    simp only [applySflp_keep_latest_fusion, applyPosition_keep_latest_fusion, applyMag_keep_latest_fusion, applyPunch_keep_latest_fusion, applyFlex_keep_latest_fusion]

theorem ingest_line_sflp_proj (now : ℚ) (st : TState) (line : List Char) :
    (ingest_line now st line).latest_sflp = (applySflp now line (applyFusion now line st).1).1.latest_sflp := by
  unfold ingest_line
  dsimp only
  split
  · simp only [applyPosition_keep_latest_sflp, applyMag_keep_latest_sflp, applyPunch_keep_latest_sflp, applyFlex_keep_latest_sflp]
  · dsimp only
    simp only [applyPosition_keep_latest_sflp, applyMag_keep_latest_sflp, applyPunch_keep_latest_sflp, applyFlex_keep_latest_sflp]

theorem ingest_line_position_proj (now : ℚ) (st : TState) (line : List Char) :
    (ingest_line now st line).latest_position = (applyPosition now line (applySflp now line (applyFusion now line st).1).1).1.latest_position := by
  unfold ingest_line
  dsimp only
  split
  · simp only [applyMag_keep_latest_position, applyPunch_keep_latest_position, applyFlex_keep_latest_position]
  · dsimp only
    simp only [applyMag_keep_latest_position, applyPunch_keep_latest_position, applyFlex_keep_latest_position]

theorem ingest_line_mag_proj (now : ℚ) (st : TState) (line : List Char) :
    (ingest_line now st line).latest_mag = (applyMag now line (applyPosition now line (applySflp now line (applyFusion now line st).1).1).1).1.latest_mag := by
  unfold ingest_line
  dsimp only
  split
  · simp only [applyPunch_keep_latest_mag, applyFlex_keep_latest_mag]
  · dsimp only
    simp only [applyPunch_keep_latest_mag, applyFlex_keep_latest_mag]

theorem ingest_line_punch_proj (now : ℚ) (st : TState) (line : List Char) :
    (ingest_line now st line).last_punch = (applyPunch now line (applyMag now line (applyPosition now line (applySflp now line (applyFusion now line st).1).1).1).1).1.last_punch := by
  unfold ingest_line
  dsimp only
  split
  · simp only [applyFlex_keep_last_punch]
  · dsimp only
    simp only [applyFlex_keep_last_punch]

theorem ingest_line_flex_value_proj (now : ℚ) (st : TState) (line : List Char) :
    (ingest_line now st line).flex_value = (applyFlex now line (applyPunch now line (applyMag now line (applyPosition now line (applySflp now line (applyFusion now line st).1).1).1).1).1).1.flex_value := by
  unfold ingest_line
  dsimp only
  split
  · rfl
  · dsimp only

theorem ingest_line_flex_raw_median_proj (now : ℚ) (st : TState) (line : List Char) :
    (ingest_line now st line).flex_raw_median = (applyFlex now line (applyPunch now line (applyMag now line (applyPosition now line (applySflp now line (applyFusion now line st).1).1).1).1).1).1.flex_raw_median := by
  unfold ingest_line
  dsimp only
  split
  · rfl
  · dsimp only

theorem ingest_line_flex_midi_proj (now : ℚ) (st : TState) (line : List Char) :
    (ingest_line now st line).flex_midi = (applyFlex now line (applyPunch now line (applyMag now line (applyPosition now line (applySflp now line (applyFusion now line st).1).1).1).1).1).1.flex_midi := by
  unfold ingest_line
  dsimp only
  split
  · rfl
  · dsimp only

theorem ingest_fusion_char (now : ℚ) (st : TState) (line : List Char) :
    (ingest_line now st line).latest_fusion = st.latest_fusion ∨
      ∃ s q, searchWith matchFusionAt line = some s ∧ parse_quat s = some q ∧
        (ingest_line now st line).latest_fusion = some q := by
  rw [ingest_line_fusion_proj]
  exact applyFusion_change now line st

theorem ingest_sflp_char (now : ℚ) (st : TState) (line : List Char) :
    (ingest_line now st line).latest_sflp = st.latest_sflp ∨
      ∃ s q, searchWith matchSflpAt line = some s ∧ parse_quat s = some q ∧
        (ingest_line now st line).latest_sflp = some q := by
  rw [ingest_line_sflp_proj]
  have h := applySflp_change now line (applyFusion now line st).1
  rw [applyFusion_keep_latest_sflp] at h
  exact h

theorem ingest_position_char (now : ℚ) (st : TState) (line : List Char) :
    (ingest_line now st line).latest_position = st.latest_position ∨
      ∃ s v, searchWith matchPosAt line = some s ∧ parse_vec3 s = some v ∧
        (ingest_line now st line).latest_position = some v := by
  rw [ingest_line_position_proj]
  have h := applyPosition_change now line
    (applySflp now line (applyFusion now line st).1).1
  rw [applySflp_keep_latest_position, applyFusion_keep_latest_position] at h
  exact h

theorem ingest_mag_char (now : ℚ) (st : TState) (line : List Char) :
    (ingest_line now st line).latest_mag = st.latest_mag ∨
      ∃ s v, searchWith matchMagAt line = some s ∧ parse_vec3 s = some v ∧
        (ingest_line now st line).latest_mag = some v := by
  rw [ingest_line_mag_proj]
  have h := applyMag_change now line
    (applyPosition now line (applySflp now line (applyFusion now line st).1).1).1
  rw [applyPosition_keep_latest_mag, applySflp_keep_latest_mag,
    applyFusion_keep_latest_mag] at h
  exact h

theorem ingest_punch_char (now : ℚ) (st : TState) (line : List Char) :
    (ingest_line now st line).last_punch = st.last_punch ∨
      ∃ g v h w, searchWith matchPunchAt line = some g ∧
        parseFloat g.1 = some (FloatVal.fin v) ∧
        parseFloat g.2.1 = some (FloatVal.fin h) ∧
        parseFloat g.2.2 = some (FloatVal.fin w) ∧
        (ingest_line now st line).last_punch = some (v, h, w) := by
  rw [ingest_line_punch_proj]
  have h := applyPunch_change now line
    (applyMag now line (applyPosition now line
      (applySflp now line (applyFusion now line st).1).1).1).1
  rw [applyMag_keep_last_punch, applyPosition_keep_last_punch,
    applySflp_keep_last_punch, applyFusion_keep_last_punch] at h
  exact h

theorem ingest_flex_char (now : ℚ) (st : TState) (line : List Char) :
    ((ingest_line now st line).flex_value = st.flex_value ∧
      (ingest_line now st line).flex_raw_median = st.flex_raw_median ∧
      (ingest_line now st line).flex_midi = st.flex_midi) ∨
      ∃ g, searchWith matchFlexAt line = some g ∧
        (ingest_line now st line).flex_value = some (natOfDigits g.2.1) ∧
        (ingest_line now st line).flex_raw_median = some (natOfDigits g.2.2.1) ∧
        (ingest_line now st line).flex_midi = some (natOfDigits g.2.2.2) := by
  rw [ingest_line_flex_value_proj, ingest_line_flex_raw_median_proj,
    ingest_line_flex_midi_proj]
  have h := applyFlex_change now line
    (applyPunch now line (applyMag now line (applyPosition now line
      (applySflp now line (applyFusion now line st).1).1).1).1).1
  rw [applyPunch_keep_flex_value, applyMag_keep_flex_value,
    applyPosition_keep_flex_value, applySflp_keep_flex_value,
    applyFusion_keep_flex_value, applyPunch_keep_flex_raw_median,
    applyMag_keep_flex_raw_median, applyPosition_keep_flex_raw_median,
    applySflp_keep_flex_raw_median, applyFusion_keep_flex_raw_median,
    applyPunch_keep_flex_midi, applyMag_keep_flex_midi,
    applyPosition_keep_flex_midi, applySflp_keep_flex_midi,
    applyFusion_keep_flex_midi] at h
  exact h

theorem ingest_fusion_reject (now : ℚ) (st : TState) (line : List Char)
    (h : ((searchWith matchFusionAt line).all fun s => (parse_quat s).isNone) = true) :
    (ingest_line now st line).latest_fusion = st.latest_fusion := by
  rw [ingest_line_fusion_proj, applyFusion_reject now line st h]

theorem ingest_sflp_reject (now : ℚ) (st : TState) (line : List Char)
    (h : ((searchWith matchSflpAt line).all fun s => (parse_quat s).isNone) = true) :
    (ingest_line now st line).latest_sflp = st.latest_sflp := by
  rw [ingest_line_sflp_proj, applySflp_reject now line _ h,
    applyFusion_keep_latest_sflp]

theorem sumSq_ne_zero {qa qb qc qd : ℚ}
    (h : ¬(qa = 0 ∧ qb = 0 ∧ qc = 0 ∧ qd = 0)) :
    qa ^ 2 + qb ^ 2 + qc ^ 2 + qd ^ 2 ≠ 0 := by
  intro hz
  apply h
  have ha := sq_nonneg qa
  have hb := sq_nonneg qb
  have hc := sq_nonneg qc
  have hd := sq_nonneg qd
  refine ⟨sq_eq_zero_iff.mp (le_antisymm (by linarith) ha),
    sq_eq_zero_iff.mp (le_antisymm (by linarith) hb),
    sq_eq_zero_iff.mp (le_antisymm (by linarith) hc),
    sq_eq_zero_iff.mp (le_antisymm (by linarith) hd)⟩

theorem parse_quat_normSq_ne {s : List Char} {v : ℚ × ℚ × ℚ × ℚ}
    (h : parse_quat s = some v) :
    v.1 ^ 2 + v.2.1 ^ 2 + v.2.2.1 ^ 2 + v.2.2.2 ^ 2 ≠ 0 := by
  unfold parse_quat at h
  dsimp only at h
  split at h
  next a b c d =>
    split at h
    next qa qb qc qd h1 h2 h3 h4 =>
      by_cases hz : qa = 0 ∧ qb = 0 ∧ qc = 0 ∧ qd = 0
      · rw [if_pos hz] at h
        simp at h
      · rw [if_neg hz] at h
        cases h
        simpa using sumSq_ne_zero hz
    next => simp at h
  next => simp at h

theorem normalizeQuat_unit {v : ℚ × ℚ × ℚ × ℚ}
    (h : v.1 ^ 2 + v.2.1 ^ 2 + v.2.2.1 ^ 2 + v.2.2.2 ^ 2 ≠ 0) :
    sumSqR (normalizeQuat v) = 1 := by
  have hcast : ((v.1 : ℝ) ^ 2 + (v.2.1 : ℝ) ^ 2 + (v.2.2.1 : ℝ) ^ 2 + (v.2.2.2 : ℝ) ^ 2) =
      ((v.1 ^ 2 + v.2.1 ^ 2 + v.2.2.1 ^ 2 + v.2.2.2 ^ 2 : ℚ) : ℝ) := by
    push_cast
    ring
  have hpos : (0 : ℝ) < (v.1 : ℝ) ^ 2 + (v.2.1 : ℝ) ^ 2 + (v.2.2.1 : ℝ) ^ 2 +
      (v.2.2.2 : ℝ) ^ 2 := by
    rcases lt_or_eq_of_le (by positivity :
        (0 : ℝ) ≤ (v.1 : ℝ) ^ 2 + (v.2.1 : ℝ) ^ 2 + (v.2.2.1 : ℝ) ^ 2 + (v.2.2.2 : ℝ) ^ 2)
      with hlt | heq
    · exact hlt
    · exfalso
      apply h
      have : ((v.1 ^ 2 + v.2.1 ^ 2 + v.2.2.1 ^ 2 + v.2.2.2 ^ 2 : ℚ) : ℝ) = 0 := by
        rw [← hcast, ← heq]
      exact_mod_cast this
  unfold sumSqR normalizeQuat
  dsimp only
  rw [div_pow, div_pow, div_pow, div_pow, Real.sq_sqrt hpos.le,
    div_add_div_same, div_add_div_same, div_add_div_same]
  exact div_self hpos.ne'

/-- Claim C5: a `FUSION` (or `SFLP`) quaternion payload rejected by
`parse_quat` — wrong arity, unparsable or non-finite components, or zero
norm — leaves the stored quaternion field unchanged; any stored quaternion is
either the prior one or a `parse_quat`-validated value; and every validated
value, divided by its norm as the program does before storing, has squared
norm exactly 1. -/
theorem C5_quat_validation (now : ℚ) (st : TState) (line : List Char) :
    ((((searchWith matchFusionAt line).all fun s => (parse_quat s).isNone) = true →
      (ingest_line now st line).latest_fusion = st.latest_fusion) ∧
    (((searchWith matchSflpAt line).all fun s => (parse_quat s).isNone) = true →
      (ingest_line now st line).latest_sflp = st.latest_sflp)) ∧
    (∀ v, (ingest_line now st line).latest_fusion = some v →
      st.latest_fusion = some v ∨ ∃ s, searchWith matchFusionAt line = some s ∧
        parse_quat s = some v) ∧
    (∀ v, (ingest_line now st line).latest_sflp = some v →
      st.latest_sflp = some v ∨ ∃ s, searchWith matchSflpAt line = some s ∧
        parse_quat s = some v) ∧
    (∀ (s : List Char) (v : ℚ × ℚ × ℚ × ℚ), parse_quat s = some v →
      sumSqR (normalizeQuat v) = 1) := by
  refine ⟨⟨fun h => ingest_fusion_reject now st line h,
    fun h => ingest_sflp_reject now st line h⟩, ?_, ?_, ?_⟩
  · intro v hv
    rcases ingest_fusion_char now st line with he | ⟨s, q, hs, hq, he⟩
    · left
      rw [← he]
      exact hv
    · right
      refine ⟨s, hs, ?_⟩
      rw [he] at hv
      cases hv
      exact hq
  · intro v hv
    rcases ingest_sflp_char now st line with he | ⟨s, q, hs, hq, he⟩
    · left
      rw [← he]
      exact hv
    · right
      refine ⟨s, hs, ?_⟩
      rw [he] at hv
      cases hv
      exact hq
  · intro s v hv
    exact normalizeQuat_unit (parse_quat_normSq_ne hv)

/-- Witness for C5: a zero-norm payload leaves a previously stored fusion
quaternion in place, and the validated payload `"1,0,0,0"` normalizes to unit
norm. -/
theorem C5_quat_validation_witness :
    (((searchWith matchFusionAt "FUSION q:[0,0,0,0]".toList).all
        fun s => (parse_quat s).isNone) = true ∧
      (ingest_line 1 { initTelemetry with latest_fusion := some (1, 0, 0, 0) }
          "FUSION q:[0,0,0,0]".toList).latest_fusion =
        ({ initTelemetry with
            latest_fusion := some (1, 0, 0, 0) } : TState).latest_fusion) ∧
    (parse_quat "1,0,0,0".toList = some (1, 0, 0, 0) ∧
      sumSqR (normalizeQuat (1, 0, 0, 0)) = 1) :=
  ⟨⟨by decide,
    (C5_quat_validation 1 { initTelemetry with latest_fusion := some (1, 0, 0, 0) }
      "FUSION q:[0,0,0,0]".toList).1.1 (by decide)⟩,
   ⟨by decide,
    (C5_quat_validation 1 initTelemetry []).2.2.2 "1,0,0,0".toList (1, 0, 0, 0)
      (by decide)⟩⟩

/-- Claim C10: each of the six telemetry channels is monotone in presence:
one ingestion either leaves its field(s) unchanged or overwrites them with
newly validated values, and a field that holds a value is never reset to
absent. -/
theorem C10_monotone_presence (now : ℚ) (st : TState) (line : List Char) :
    ((ingest_line now st line).latest_fusion = st.latest_fusion ∨
      ∃ s q, searchWith matchFusionAt line = some s ∧ parse_quat s = some q ∧
        (ingest_line now st line).latest_fusion = some q) ∧
    ((ingest_line now st line).latest_sflp = st.latest_sflp ∨
      ∃ s q, searchWith matchSflpAt line = some s ∧ parse_quat s = some q ∧
        (ingest_line now st line).latest_sflp = some q) ∧
    ((ingest_line now st line).latest_position = st.latest_position ∨
      ∃ s v, searchWith matchPosAt line = some s ∧ parse_vec3 s = some v ∧
        (ingest_line now st line).latest_position = some v) ∧
    ((ingest_line now st line).latest_mag = st.latest_mag ∨
      ∃ s v, searchWith matchMagAt line = some s ∧ parse_vec3 s = some v ∧
        (ingest_line now st line).latest_mag = some v) ∧
    ((ingest_line now st line).last_punch = st.last_punch ∨
      ∃ g v h w, searchWith matchPunchAt line = some g ∧
        parseFloat g.1 = some (FloatVal.fin v) ∧
        parseFloat g.2.1 = some (FloatVal.fin h) ∧
        parseFloat g.2.2 = some (FloatVal.fin w) ∧
        (ingest_line now st line).last_punch = some (v, h, w)) ∧
    (((ingest_line now st line).flex_value = st.flex_value ∧
      (ingest_line now st line).flex_raw_median = st.flex_raw_median ∧
      (ingest_line now st line).flex_midi = st.flex_midi) ∨
      ∃ g, searchWith matchFlexAt line = some g ∧
        (ingest_line now st line).flex_value = some (natOfDigits g.2.1) ∧
        (ingest_line now st line).flex_raw_median = some (natOfDigits g.2.2.1) ∧
        (ingest_line now st line).flex_midi = some (natOfDigits g.2.2.2)) ∧
    (st.latest_fusion.isSome = true →
      (ingest_line now st line).latest_fusion.isSome = true) ∧
    (st.latest_sflp.isSome = true →
      (ingest_line now st line).latest_sflp.isSome = true) ∧
    (st.latest_position.isSome = true →
      (ingest_line now st line).latest_position.isSome = true) ∧
    (st.latest_mag.isSome = true →
      (ingest_line now st line).latest_mag.isSome = true) ∧
    (st.last_punch.isSome = true →
      (ingest_line now st line).last_punch.isSome = true) ∧
    (st.flex_value.isSome = true →
      (ingest_line now st line).flex_value.isSome = true) ∧
    (st.flex_raw_median.isSome = true →
      (ingest_line now st line).flex_raw_median.isSome = true) ∧
    (st.flex_midi.isSome = true →
      (ingest_line now st line).flex_midi.isSome = true) := by
  refine ⟨ingest_fusion_char now st line, ingest_sflp_char now st line,
    ingest_position_char now st line, ingest_mag_char now st line,
    ingest_punch_char now st line, ingest_flex_char now st line,
    ?_, ?_, ?_, ?_, ?_, ?_, ?_, ?_⟩
  · intro hp
    rcases ingest_fusion_char now st line with he | ⟨s, q, _, _, he⟩ <;> rw [he]
    · exact hp
    · rfl
  · intro hp
    rcases ingest_sflp_char now st line with he | ⟨s, q, _, _, he⟩ <;> rw [he]
    · exact hp
    · rfl
  · intro hp
    rcases ingest_position_char now st line with he | ⟨s, v, _, _, he⟩ <;> rw [he]
    · exact hp
    · rfl
  · intro hp
    rcases ingest_mag_char now st line with he | ⟨s, v, _, _, he⟩ <;> rw [he]
    · exact hp
    · rfl
  · intro hp
    rcases ingest_punch_char now st line with he | ⟨g, v, h, w, _, _, _, _, he⟩ <;>
      rw [he]
    · exact hp
    · rfl
  · intro hp
    rcases ingest_flex_char now st line with ⟨h1, _, _⟩ | ⟨g, _, h1, _, _⟩ <;> rw [h1]
    · exact hp
    · rfl
  · intro hp
    rcases ingest_flex_char now st line with ⟨_, h2, _⟩ | ⟨g, _, _, h2, _⟩ <;> rw [h2]
    · exact hp
    · rfl
  · intro hp
    rcases ingest_flex_char now st line with ⟨_, _, h3⟩ | ⟨g, _, _, _, h3⟩ <;> rw [h3]
    · exact hp
    · rfl

/-- Witness for C10: with a fusion quaternion already stored, ingesting a
position record keeps the fusion field present. -/
theorem C10_monotone_presence_witness :
    ({ initTelemetry with latest_fusion := some (1, 0, 0, 0) } : TState).latest_fusion.isSome
        = true ∧
    (ingest_line 1 { initTelemetry with latest_fusion := some (1, 0, 0, 0) }
        "POS:[1,2,3]".toList).latest_fusion.isSome = true :=
  ⟨by decide,
   (C10_monotone_presence 1 { initTelemetry with latest_fusion := some (1, 0, 0, 0) }
      "POS:[1,2,3]".toList).2.2.2.2.2.2.1 (by decide)⟩

/-! ### Outbound-write and serial-loop lemmas -/

theorem chunkAux_nil (f n : ℕ) : chunkAux f n [] = [] := by
  cases f with
  | zero => rfl
  | succ f => simp [chunkAux]

theorem chunkAux_spec (f : ℕ) : ∀ (n : ℕ) (l : List Nat), 0 < n → l.length ≤ f →
    (chunkAux f n l).flatten = l ∧
    (∀ c ∈ chunkAux f n l, c.length ≤ n) ∧
    (∀ i c, i + 1 < (chunkAux f n l).length → (chunkAux f n l).get? i = some c →
      c.length = n) := by
  induction f with
  | zero =>
    intro n l hn hl
    have hl0 : l = [] := List.length_eq_zero.mp (Nat.le_zero.mp hl)
    subst hl0
    exact ⟨rfl, by simp [chunkAux], by simp [chunkAux]⟩
  | succ f ih =>
    intro n l hn hl
    by_cases hl0 : l.isEmpty = true
    · have he : l = [] := by simpa using hl0
      subst he
      refine ⟨?_, ?_, ?_⟩ <;> simp [chunkAux]
    · rw [chunkAux, if_neg hl0]
      have hlen : (l.drop n).length ≤ f := by
        simp only [List.length_drop]
        omega
      obtain ⟨h1, h2, h3⟩ := ih n (l.drop n) hn hlen
      refine ⟨?_, ?_, ?_⟩
      · simp only [List.flatten_cons, h1, List.take_append_drop]
      · intro c hc
        rcases List.mem_cons.mp hc with rfl | hc'
        · simp only [List.length_take]
          omega
        · exact h2 c hc'
      · intro i c hi hg
        cases i with
        | zero =>
          simp only [List.get?_cons_zero, Option.some.injEq] at hg
          subst hg
          simp only [List.length_cons] at hi
          have hrest : chunkAux f n (l.drop n) ≠ [] := by
            intro he
            rw [he] at hi
            simp at hi
          have hdrop : l.drop n ≠ [] := by
            intro he
            rw [he, chunkAux_nil] at hrest
            exact hrest rfl
          have hlong : n < l.length := by
            by_contra hle
            exact hdrop (List.drop_eq_nil_of_le (by omega))
          simp only [List.length_take]
          omega
        | succ i =>
          exact h3 i c (by simpa using hi) (by simpa using hg)

/-- Claim C6 (amended): `_write_nus` writes the payload in order, sliced into
chunks of `chunk_size = max(DEFAULT_WRITE_CHUNK, mtu − 3)` bytes when a
negotiated size `mtu` is known and `DEFAULT_WRITE_CHUNK` (= 20) bytes when
not: the chunks concatenate to exactly the payload, no chunk exceeds the
chunk size, every chunk except possibly the last has exactly the chunk size,
and whenever `mtu ≥ 23` every chunk is at most `mtu − 3` bytes.  (For
`mtu < 23` the `max` clamp produces 20-byte chunks larger than `mtu − 3`, see
the counterexample.) -/
theorem C6_write_chunking (mtu : Option ℤ) (payload : List Nat) :
    ((writeNus mtu payload).flatten = payload) ∧
    (∀ c ∈ writeNus none payload, c.length ≤ DEFAULT_WRITE_CHUNK) ∧
    (∀ i c, i + 1 < (writeNus none payload).length →
      (writeNus none payload).get? i = some c → c.length = DEFAULT_WRITE_CHUNK) ∧
    (∀ m : ℤ, 23 ≤ m → mtu = some m →
      ∀ c ∈ writeNus mtu payload, (c.length : ℤ) ≤ m - 3) := by
  have hsize : ∀ mt : Option ℤ, 0 <
      (match mt with
        | none => (DEFAULT_WRITE_CHUNK : ℤ)
        | some m => max (DEFAULT_WRITE_CHUNK : ℤ) (m - 3)).toNat := by
    intro mt
    cases mt with
    | none => decide
    | some m =>
      show 0 < (max (DEFAULT_WRITE_CHUNK : ℤ) (m - 3)).toNat
      simp only [DEFAULT_WRITE_CHUNK]
      omega
  have hmain : ∀ mt : Option ℤ,
      (writeNus mt payload).flatten = payload ∧
      (∀ c ∈ writeNus mt payload, c.length ≤
        (match mt with
          | none => (DEFAULT_WRITE_CHUNK : ℤ)
          | some m => max (DEFAULT_WRITE_CHUNK : ℤ) (m - 3)).toNat) ∧
      (∀ i c, i + 1 < (writeNus mt payload).length →
        (writeNus mt payload).get? i = some c → c.length =
        (match mt with
          | none => (DEFAULT_WRITE_CHUNK : ℤ)
          | some m => max (DEFAULT_WRITE_CHUNK : ℤ) (m - 3)).toNat) := by
    intro mt
    by_cases hp : payload.isEmpty = true
    · have he : payload = [] := by simpa using hp
      subst he
      unfold writeNus
      exact ⟨rfl, by simp, by simp⟩
    · unfold writeNus
      rw [if_neg hp]
      exact chunkAux_spec payload.length _ payload (hsize mt) le_rfl
  refine ⟨(hmain mtu).1, ?_, ?_, ?_⟩
  · intro c hc
    have h : c.length ≤ ((DEFAULT_WRITE_CHUNK : ℤ)).toNat := (hmain none).2.1 c hc
    simpa using h
  · intro i c hi hg
    have h : c.length = ((DEFAULT_WRITE_CHUNK : ℤ)).toNat := (hmain none).2.2 i c hi hg
    simpa using h
  · intro m hm hmt c hc
    subst hmt
    have h : c.length ≤ (max (DEFAULT_WRITE_CHUNK : ℤ) (m - 3)).toNat :=
      (hmain (some m)).2.1 c hc
    have hmax : max (DEFAULT_WRITE_CHUNK : ℤ) (m - 3) = m - 3 := by
      rw [max_eq_right]
      simp only [DEFAULT_WRITE_CHUNK]
      omega
    rw [hmax] at h
    omega

/-- Claim C6 counterexample: with a negotiated size of 10, the written chunk
for a 20-byte payload is 20 bytes, more than `mtu − 3 = 7` (the code clamps
the chunk size from below at `DEFAULT_WRITE_CHUNK`). -/
theorem C6_counterexample :
    ¬∀ c ∈ writeNus (some 10) (List.range 20), (c.length : ℤ) ≤ 10 - 3 := by
  decide

/-- Witness for C6 at `mtu = 103`, 250-byte payload. -/
theorem C6_write_chunking_witness :
    ((writeNus (some 103) (List.range 250)).flatten = List.range 250) ∧
    ((23 : ℤ) ≤ 103 ∧
      ∀ c ∈ writeNus (some 103) (List.range 250), (c.length : ℤ) ≤ 103 - 3) :=
  ⟨(C6_write_chunking (some 103) (List.range 250)).1,
   by decide,
   (C6_write_chunking (some 103) (List.range 250)).2.2.2 103 (by decide) rfl⟩

theorem serialStep_first (s : Stim)
    (h : ¬(s.portPresent = true ∧ s.openOk = true)) :
    serialStep ⟨false, 0⟩ s =
      (⟨false, 1⟩, [if s.portPresent then SMsg.connectFailed else SMsg.waiting]) := by
  unfold serialStep
  cases hp : s.portPresent with
  | false => simp [hp]
  | true =>
    have ho : s.openOk = false := by
      cases hoo : s.openOk
      · rfl
      · exact absurd ⟨hp, hoo⟩ h
    simp [hp, ho]

theorem serialRun_outage_silent (stims : List Stim) : ∀ a : ℕ, 0 < a →
    (∀ s ∈ stims, ¬(s.portPresent = true ∧ s.openOk = true)) →
    serialRun ⟨false, a⟩ stims = ([], ⟨false, a + stims.length⟩) := by
  induction stims with
  | nil => intro a ha _; simp [serialRun]
  | cons s rest ih =>
    intro a ha hall
    have hs := hall s (by simp)
    have hstep : serialStep ⟨false, a⟩ s = (⟨false, a + 1⟩, []) := by
      unfold serialStep
      cases hp : s.portPresent with
      | false => simp [hp]; omega
      | true =>
        have ho : s.openOk = false := by
          cases hoo : s.openOk
          · rfl
          · exact absurd ⟨hp, hoo⟩ hs
        simp [hp, ho]
        omega
    rw [serialRun]
    try dsimp only
    rw [hstep]
    try dsimp only
    rw [ih (a + 1) (by omega) (fun x hx => hall x (by simp [hx]))]
    simp only [List.length_cons, List.nil_append]
    congr 2
    omega

/-- Claim C9 (amended): within a single outage — a maximal run of loop
iterations with no successful open, entered with `reconnect_attempt = 0` as
at thread start or right after a disconnect — exactly one status message is
emitted, at the outage's first iteration: "connection failed" when the port
is present there and the open fails, but the "waiting" message when the port
is absent; all later iterations of the outage are silent.  In particular an
outage that begins with port-absent waiting iterations emits NO "connection
failed" message at all, because the waiting and failure messages share the
single `reconnect_attempt` counter.  A read error while connected emits the
disconnect message and starts a fresh outage (counter reset to 0). -/
theorem C9_outage_single_message (s0 : Stim) (stims : List Stim)
    (h0 : ¬(s0.portPresent = true ∧ s0.openOk = true))
    (hall : ∀ s ∈ stims, ¬(s.portPresent = true ∧ s.openOk = true)) :
    (serialRun ⟨false, 0⟩ (s0 :: stims)).1 =
      [if s0.portPresent then SMsg.connectFailed else SMsg.waiting] ∧
    (∀ (a : ℕ) (r : Stim), r.readOk = false →
      serialStep ⟨true, a⟩ r = (⟨false, 0⟩, [SMsg.disconnected])) := by
  constructor
  · rw [serialRun]
    try dsimp only
    rw [serialStep_first s0 h0]
    try dsimp only
    rw [serialRun_outage_silent stims 1 (by omega) hall]
    simp
  · intro a r hr
    unfold serialStep
    simp [hr]

/-- Claim C9 counterexample: an outage that begins with a port-absent
iteration and then suffers a connection-open failure emits only the "waiting"
message — no "connection failed" message at all — because both messages are
gated by the same `reconnect_attempt` counter, already 1 by the time the open
fails. -/
theorem C9_counterexample :
    SMsg.connectFailed ∉
      (serialRun ⟨false, 0⟩ [⟨false, false, false⟩, ⟨true, false, false⟩]).1 ∧
    (serialRun ⟨false, 0⟩ [⟨false, false, false⟩, ⟨true, false, false⟩]).1 =
      [SMsg.waiting] := by decide

/-- Witness for C9: an outage of two open-failure iterations with the port
present emits exactly one "connection failed" message. -/
theorem C9_outage_single_message_witness :
    (¬((⟨true, false, false⟩ : Stim).portPresent = true ∧
        (⟨true, false, false⟩ : Stim).openOk = true) ∧
      ∀ s ∈ [(⟨true, false, false⟩ : Stim)],
        ¬(s.portPresent = true ∧ s.openOk = true)) ∧
    (serialRun ⟨false, 0⟩
        [(⟨true, false, false⟩ : Stim), ⟨true, false, false⟩]).1 =
      [if (⟨true, false, false⟩ : Stim).portPresent then SMsg.connectFailed
       else SMsg.waiting] :=
  ⟨⟨by decide, by decide⟩,
   (C9_outage_single_message ⟨true, false, false⟩ [⟨true, false, false⟩]
     (by decide) (by decide)).1⟩

end Dashboard
